import Mathlib

/-!
# ProbeReaderService: the eBPF probe-event reader

A shallow embedding of `ebpf/src/probereaderservice.cpp`.

* The per-CPU array table is a read-only snapshot: a function from a ring
  position to the status code and the row of per-CPU words that
  `get_value` delivers for it.
* Reference parameters that a function updates (`index`, `value`,
  `table_data`) are returned in a result record next to the `bool` the C++
  function returns.
* 64-bit words, indices and bytes are natural numbers; every `static_cast`
  is an explicit reduction modulo a power of two.
* `chunk_bytes` views a word in host byte order, taken little-endian.
* The staged list is part of the state `PrivateData`; the mutex makes an append
  and a drain atomic steps, and the outcome of `wait_for` is an argument of
  `getProbeEvents`.
* The functions named `...Reads` follow the control flow of the readers and
  record the ring positions passed to `get_value`.
* `readEventBuffer` reports in `raised` whether `reserve` throws
  `std::length_error`; the functions named `...Raises` follow the control flow
  of the readers and tell whether an exception leaves the call. Running out of
  memory is not modelled.
-/

namespace trailofbits

/-! ## probes/common/defs.h -/

/-- Modelled from the spec: the constants of `probes/common/defs.h`, a header
that is not part of the sources at hand. They are kept as parameters: the ring
capacity, the magic of the event-type word and the two string-list sentinels.
With them, as two more parameters, the values `max_size()` of `std::string` and
of `std::vector<std::uint8_t>` in the standard library the reader is built
with. -/
structure Defs where
  EVENT_MAP_SIZE : Nat
  BASE_EVENT_TYPE : Nat
  VARARGS_TRUNCATION : Nat
  VARARGS_TERMINATOR : Nat
  string_max_size : Nat
  vector_max_size : Nat
  deriving Repr

/-- Modelled from the spec: the index-wrap macro `INCREMENT_EVENT_DATA_INDEX_BY`
of `probes/common/defs.h`, which is missing; ring index arithmetic is taken
modulo the ring capacity. -/
def INCREMENT_EVENT_DATA_INDEX_BY (c : Defs) (index amount : Nat) : Nat :=
  (index + amount) % c.EVENT_MAP_SIZE

/-- Modelled from the spec: the macro `INCREMENT_EVENT_DATA_INDEX` of the
missing `probes/common/defs.h`, an advance by one slot with wraparound. -/
def INCREMENT_EVENT_DATA_INDEX (c : Defs) (index : Nat) : Nat :=
  INCREMENT_EVENT_DATA_INDEX_BY c index 1

/-! ## The ring table -/

/-- What `event_data_table.get_value(index, table_data)` delivers for one ring
position: the code of the returned status and the per-CPU words. -/
structure TableRow where
  code : Int
  data : List Nat
  deriving Repr, DecidableEq

/-- The table `ebpf::BPFPercpuArrayTable<std::uint64_t>`, seen through
`get_value`. -/
abbrev BPFPercpuArrayTable := Nat → TableRow

/-! ## Numeric conversions -/

/-- The conversion `static_cast<std::uint64_t>`. -/
def cast_uint64 (w : Nat) : Nat := w % 2 ^ 64

/-- The conversion `static_cast<std::int64_t>` of a 64-bit word. -/
def cast_int64 (w : Nat) : Int :=
  if w % 2 ^ 64 < 2 ^ 63 then ((w % 2 ^ 64 : Nat) : Int)
  else ((w % 2 ^ 64 : Nat) : Int) - 2 ^ 64

/-- The conversion `static_cast<int>` (and `static_cast<pid_t>`): the low 32
bits read as a two's-complement integer. -/
def cast_int (w : Nat) : Int :=
  if w % 2 ^ 32 < 2 ^ 31 then ((w % 2 ^ 32 : Nat) : Int)
  else ((w % 2 ^ 32 : Nat) : Int) - 2 ^ 32

/-- The conversion `static_cast<uid_t>` (and `static_cast<gid_t>`). -/
def cast_uint32 (w : Nat) : Nat := w % 2 ^ 32

/-- The view `chunk_bytes` of the anonymous union in `readEventBuffer`: the
eight bytes of `chunk`, lowest first. -/
def chunk_bytes (chunk : Nat) : List Nat :=
  (List.range 8).map fun j => chunk / 256 ^ j % 256

/-! ## Slot and scalar readers -/

/-- The reference parameters of `readEventSlot` after the call. -/
structure SlotResult where
  ok : Bool
  table_data : List Nat
  index : Nat
  deriving Repr, DecidableEq

/-- The function `readEventSlot`. -/
def readEventSlot (c : Defs) (event_data_table : BPFPercpuArrayTable)
    (index cpu_id : Nat) : SlotResult :=
  let row := event_data_table index
  if row.code ≠ 0 then
    { ok := false, table_data := row.data, index := index }
  else if cpu_id ≥ row.data.length then
    { ok := false, table_data := row.data, index := index }
  else
    { ok := true, table_data := row.data, index := INCREMENT_EVENT_DATA_INDEX c index }

/-- The reference parameters of `readEventData<T>` after the call. -/
structure DataResult (α : Type) where
  ok : Bool
  value : α
  index : Nat
  deriving Repr, DecidableEq

/-- The function template `readEventData<T>`; `static_cast` is the conversion
to `T`. -/
def readEventData {α : Type} [Zero α] (static_cast : Nat → α) (c : Defs)
    (event_data_table : BPFPercpuArrayTable) (index cpu_id : Nat) : DataResult α :=
  let s := readEventSlot c event_data_table index cpu_id
  if s.ok = false then
    { ok := false, value := 0, index := s.index }
  else
    { ok := true, value := static_cast (s.table_data.getD cpu_id 0), index := s.index }

/-! ## Buffer readers -/

/-- The inner loop of `readEventBuffer` over the bytes of one chunk: the new
value and the flag `terminate`. -/
def appendChunkBytes (is_string : Bool) : List Nat → List Nat → List Nat × Bool
  | [], new_value => (new_value, false)
  | ch :: rest, new_value =>
    if is_string && ch == 0 then (new_value, true)
    else appendChunkBytes is_string rest (new_value ++ [ch])

/-- The outer loop of `readEventBuffer`, with the number of chunks still to
read; `none` is the `return false` inside the loop. -/
def readEventBufferLoop (is_string : Bool) (c : Defs)
    (event_data_table : BPFPercpuArrayTable) (cpu_id : Nat) :
    Nat → Nat → List Nat → Option (List Nat)
  | 0, _, new_value => some new_value
  | n + 1, str_index, new_value =>
    let r := readEventData cast_uint64 c event_data_table str_index cpu_id
    if r.ok = false then none
    else
      match appendChunkBytes is_string (chunk_bytes r.value) new_value with
      | (v, true) => some v
      | (v, false) => readEventBufferLoop is_string c event_data_table cpu_id n r.index v

/-- The reference parameters of `readEventBuffer` after the call, and whether
the call throws instead of returning. -/
structure BufferResult where
  ok : Bool
  value : List Nat
  index : Nat
  raised : Bool
  deriving Repr, DecidableEq

/-- Whether `reserve(n)` throws `std::length_error`: the standard containers do
so exactly when `n` is above their `max_size()`. -/
def reserveThrows (max_size n : Nat) : Bool :=
  decide (max_size < n)

/-- The function template `readEventBuffer<BufferType>`; `is_string` says
whether `BufferType` is `std::string`. The field `raised` says that
`new_value.reserve(string_buffer_size)` throws; the call then does not return,
and the other fields are those of the call had `reserve` returned. -/
def readEventBuffer (is_string : Bool) (c : Defs)
    (event_data_table : BPFPercpuArrayTable) (index cpu_id string_buffer_size : Nat) :
    BufferResult :=
  let chunk_count := string_buffer_size / 8
  let raised :=
    reserveThrows (if is_string then c.string_max_size else c.vector_max_size)
      string_buffer_size
  let str_index := index
  let index := INCREMENT_EVENT_DATA_INDEX_BY c index chunk_count
  match readEventBufferLoop is_string c event_data_table cpu_id chunk_count str_index [] with
  | none => { ok := false, value := [], index := index, raised := raised }
  | some new_value => { ok := true, value := new_value, index := index, raised := raised }

/-- The instance `readEventString`. -/
def readEventString := readEventBuffer true

/-- The instance `readEventByteArray`. -/
def readEventByteArray := readEventBuffer false

/-- Modelled from the spec: `ProbeEvent::StringList` of the missing
`probereaderservice.h`, an ordered sequence of strings plus a truncation
flag. -/
structure StringList where
  truncated : Bool
  data : List (List Nat)
  deriving Repr, DecidableEq

/-- The reference parameters of `readEventStringList` after the call. -/
structure StringListResult where
  ok : Bool
  value : StringList
  index : Nat
  deriving Repr, DecidableEq

/-- The loop of `readEventStringList`, with the number of iterations left. -/
def readEventStringListLoop (c : Defs) (event_data_table : BPFPercpuArrayTable)
    (cpu_id string_buffer_size : Nat) : Nat → Nat → StringList → StringListResult
  | 0, index, value => { ok := true, value := value, index := index }
  | n + 1, index, value =>
    let q := readEventData cast_uint64 c event_data_table index cpu_id
    if q.ok = false then
      { ok := false, value := value, index := index }
    else if q.value = c.VARARGS_TRUNCATION then
      { ok := true, value := { value with truncated := true }, index := q.index }
    else if q.value = c.VARARGS_TERMINATOR then
      { ok := true, value := { value with truncated := false }, index := q.index }
    else
      let s := readEventString c event_data_table index cpu_id string_buffer_size
      if s.ok = false then
        { ok := false, value := value, index := s.index }
      else
        readEventStringListLoop c event_data_table cpu_id string_buffer_size n s.index
          { value with data := value.data ++ [s.value] }

/-- The function `readEventStringList`. -/
def readEventStringList (c : Defs) (event_data_table : BPFPercpuArrayTable)
    (index cpu_id string_buffer_size string_list_size : Nat) : StringListResult :=
  readEventStringListLoop c event_data_table cpu_id string_buffer_size string_list_size index
    { truncated := false, data := [] }

/-! ## Schema and decoded events -/

/-- Modelled from the spec: the type tag `ProbeParameter::Type` of a missing
header. The five tags the reader dispatches on, and `Unknown` for every other
value of the enumeration. -/
inductive ProbeParameterType
  | String
  | SignedInteger
  | UnsignedInteger
  | StringList
  | ByteArray
  | Unknown
  deriving Repr, DecidableEq

/-- Modelled from the spec: `ProbeParameter`, a named parameter with its type
tag (the declaration is in a missing header). -/
structure ProbeParameter where
  name : String
  type : ProbeParameterType
  deriving Repr, DecidableEq

/-- Modelled from the spec: `ManagedTracepointDescriptor` (missing header), of
which the reader uses the entry/exit flag and the ordered parameter list. -/
structure ManagedTracepointDescriptor where
  entry : Bool
  parameter_list : List ProbeParameter
  deriving Repr, DecidableEq

/-- Modelled from the spec: `KprobeDescriptor` (missing header), of which the
reader uses the entry/exit flag and the ordered parameter list. -/
structure KprobeDescriptor where
  entry : Bool
  parameter_list : List ProbeParameter
  deriving Repr, DecidableEq

/-- Modelled from the spec: `ProbeEvent::FieldValue` of the missing
`probereaderservice.h`: a signed integer, an unsigned integer, a string, a byte
sequence or a string list with its truncation flag. -/
inductive FieldValue
  | signed (v : Int)
  | unsigned (v : Nat)
  | string (v : List Nat)
  | bytes (v : List Nat)
  | stringList (v : StringList)
  deriving Repr, DecidableEq

/-- Modelled from the spec: `ProbeEvent` of the missing `probereaderservice.h`:
type index, syscall number (signed 64-bit), timestamp (unsigned 64-bit), pid and
tgid (`pid_t`), uid and gid (`uid_t`, `gid_t`), the optional exit code and the
mapping from parameter name to decoded value. -/
structure ProbeEvent where
  event_identifier : Nat
  syscall_number : Int
  timestamp : Nat
  pid : Int
  tgid : Int
  uid : Nat
  gid : Nat
  exit_code : Option Int
  field_list : List (String × FieldValue)
  deriving Repr, DecidableEq

/-- Modelled from the spec: `field_list.insert` of the missing `ProbeEvent`
declaration, the insertion of a standard associative container: a name that is
already present keeps its value. -/
def insertField (field_list : List (String × FieldValue)) (name : String)
    (value : FieldValue) : List (String × FieldValue) :=
  if field_list.any (fun e => e.1 == name) then field_list
  else field_list ++ [(name, value)]

/-- The record `ProbeReaderService::PrivateData`, without the probe handle and
the synchronisation primitives. -/
structure PrivateData where
  string_buffer_size : Nat
  string_list_size : Nat
  probe_name : String
  tracepoint : Bool
  tracepoint_list : List ManagedTracepointDescriptor
  kprobe_list : List KprobeDescriptor
  probe_event_list : List ProbeEvent
  deriving Repr, DecidableEq

/-! ## processPerfEvents -/

/-- One branch of the dispatch on `parameter.type` in `processPerfEvents`: the
decoded value and the cursor after it; `none` is `parameter_read_error`. -/
def readParameter (c : Defs) (d : PrivateData) (event_data_table : BPFPercpuArrayTable)
    (cpu_id : Nat) (parameter : ProbeParameter) (index : Nat) : Option (FieldValue × Nat) :=
  match parameter.type with
  | .String =>
    let r := readEventString c event_data_table index cpu_id d.string_buffer_size
    if r.ok = false then none else some (.string r.value, r.index)
  | .SignedInteger =>
    let r := readEventData cast_int64 c event_data_table index cpu_id
    if r.ok = false then none else some (.signed r.value, r.index)
  | .UnsignedInteger =>
    let r := readEventData cast_uint64 c event_data_table index cpu_id
    if r.ok = false then none else some (.unsigned r.value, r.index)
  | .StringList =>
    let r := readEventStringList c event_data_table index cpu_id d.string_buffer_size
      d.string_list_size
    if r.ok = false then none else some (.stringList r.value, r.index)
  | .ByteArray =>
    let r := readEventByteArray c event_data_table index cpu_id d.string_buffer_size
    if r.ok = false then none else some (.bytes r.value, r.index)
  | .Unknown => none

/-- The loop over `parameter_list` in `processPerfEvents`: the field list and
the cursor at the end; `none` is `parameter_read_error`. -/
def readParameterList (c : Defs) (d : PrivateData) (event_data_table : BPFPercpuArrayTable)
    (cpu_id : Nat) : List ProbeParameter → Nat → List (String × FieldValue) →
    Option (List (String × FieldValue) × Nat)
  | [], index, field_list => some (field_list, index)
  | parameter :: rest, index, field_list =>
    match readParameter c d event_data_table cpu_id parameter index with
    | none => none
    | some (value, index) =>
      readParameterList c d event_data_table cpu_id rest index
        (insertField field_list parameter.name value)

/-- How the body of the loop of `processPerfEvents` ends for one identifier. -/
inductive EventOutcome (α : Type)
  /-- A bounds-checked `at` threw `std::out_of_range`. -/
  | raised
  /-- The statement `continue`. -/
  | discarded
  /-- The end of the step was reached. -/
  | done (result : α)
  deriving Repr, DecidableEq

/-- The size `probe_list_size` of the schema list of the active probe kind. -/
def probeListSize (d : PrivateData) : Nat :=
  if d.tracepoint then d.tracepoint_list.length else d.kprobe_list.length

/-- The lookup `at(event_type).entry` in the list of the active probe kind;
`none` when `at` throws. -/
def entryAt (d : PrivateData) (event_type : Nat) : Option Bool :=
  if d.tracepoint then (d.tracepoint_list.get? event_type).map (fun e => e.entry)
  else (d.kprobe_list.get? event_type).map (fun e => e.entry)

/-- The lookup `at(event_type).parameter_list` in the list of the active probe
kind; `none` when `at` throws. -/
def parameterListAt (d : PrivateData) (event_type : Nat) : Option (List ProbeParameter) :=
  if d.tracepoint then (d.tracepoint_list.get? event_type).map (fun e => e.parameter_list)
  else (d.kprobe_list.get? event_type).map (fun e => e.parameter_list)

/-- The starting ring index of an identifier. -/
def eventIndex (c : Defs) (event_identifier : Nat) : Nat :=
  (event_identifier &&& 0x00FFFFFF) % c.EVENT_MAP_SIZE

/-- The CPU column of an identifier. -/
def eventCpu (event_identifier : Nat) : Nat :=
  (event_identifier >>> 28) &&& 0x000000FF

/-- The body of the loop of `processPerfEvents` up to the exit code: the event
with its header and the cursor after it. -/
def readEventHeader (c : Defs) (d : PrivateData) (event_data_table : BPFPercpuArrayTable)
    (event_identifier : Nat) : EventOutcome (ProbeEvent × Nat) :=
  let probe_list_size := probeListSize d
  let index := eventIndex c event_identifier
  let cpu_id := eventCpu event_identifier
  let r_type := readEventData cast_uint64 c event_data_table index cpu_id
  if r_type.ok = false then .discarded
  else if (r_type.value &&& 0xFFFFFFFFFFFF0000) ≠ c.BASE_EVENT_TYPE then .discarded
  else
    let event_type := r_type.value &&& 0xFFFF
    if event_type ≥ probe_list_size then .discarded
    else
      let r_syscall := readEventData cast_int64 c event_data_table r_type.index cpu_id
      if r_syscall.ok = false then .discarded
      else
        let r_timestamp := readEventData cast_uint64 c event_data_table r_syscall.index cpu_id
        if r_timestamp.ok = false then .discarded
        else
          let pid_tgid := readEventData cast_uint64 c event_data_table r_timestamp.index cpu_id
          if pid_tgid.ok = false then .discarded
          else
            let uid_gid := readEventData cast_uint64 c event_data_table pid_tgid.index cpu_id
            if uid_gid.ok = false then .discarded
            else
              let probe_event : ProbeEvent :=
                { event_identifier := event_type
                  syscall_number := r_syscall.value
                  timestamp := r_timestamp.value
                  pid := cast_int (pid_tgid.value &&& 0xFFFFFFFF)
                  tgid := cast_int (pid_tgid.value >>> 32)
                  uid := cast_uint32 (uid_gid.value &&& 0xFFFFFFFF)
                  gid := cast_uint32 (uid_gid.value >>> 32)
                  exit_code := none
                  field_list := [] }
              match entryAt d event_type with
              | none => .raised
              | some entry_event =>
                if entry_event = false then
                  let exit_code := readEventData cast_int c event_data_table uid_gid.index cpu_id
                  if exit_code.ok = false then .discarded
                  else .done ({ probe_event with exit_code := some exit_code.value },
                    exit_code.index)
                else .done (probe_event, uid_gid.index)

/-- The body of the loop of `processPerfEvents` for one identifier. -/
def processPerfEvent (c : Defs) (d : PrivateData) (event_data_table : BPFPercpuArrayTable)
    (event_identifier : Nat) : EventOutcome ProbeEvent :=
  match readEventHeader c d event_data_table event_identifier with
  | .raised => .raised
  | .discarded => .discarded
  | .done (probe_event, index) =>
    match parameterListAt d probe_event.event_identifier with
    | none => .raised
    | some parameter_list =>
      match readParameterList c d event_data_table (eventCpu event_identifier) parameter_list
          index probe_event.field_list with
      | none => .discarded
      | some (field_list, _) => .done { probe_event with field_list := field_list }

/-- The loop of `processPerfEvents` over the batch, with `new_event_list` as
accumulator; `none` when a bounds-checked `at` throws. -/
def processPerfEventsLoop (c : Defs) (d : PrivateData)
    (event_data_table : BPFPercpuArrayTable) :
    List Nat → List ProbeEvent → Option (List ProbeEvent)
  | [], new_event_list => some new_event_list
  | event_identifier :: rest, new_event_list =>
    match processPerfEvent c d event_data_table event_identifier with
    | .raised => none
    | .discarded => processPerfEventsLoop c d event_data_table rest new_event_list
    | .done probe_event =>
      processPerfEventsLoop c d event_data_table rest (new_event_list ++ [probe_event])

/-- The decoding part of `ProbeReaderService::processPerfEvents`: the list
`new_event_list` at the end of the loop over `perf_event_data`, the events the
call emits, when no `reserve` throws; `none` when a bounds-checked `at` throws.
Whether an exception leaves the call is told by `processPerfEventsRaises`. -/
def processPerfEvents (c : Defs) (d : PrivateData) (event_data_table : BPFPercpuArrayTable)
    (perf_event_data : List Nat) : Option (List ProbeEvent) :=
  processPerfEventsLoop c d event_data_table perf_event_data []

/-! ## Notions used to state the properties -/

/-- The word of the ring table at a ring position and a CPU column. -/
def slotWord (event_data_table : BPFPercpuArrayTable) (index cpu_id : Nat) : Nat :=
  (event_data_table index).data.getD cpu_id 0

/-- The cursor after `count` slots have been consumed one at a time. -/
def slotIndex (c : Defs) (index : Nat) : Nat → Nat
  | 0 => index
  | count + 1 => INCREMENT_EVENT_DATA_INDEX c (slotIndex c index count)

/-- The bytes of `count` consecutive slots from a ring position on, in the
order in which `readEventBuffer` visits them. -/
def bufferBytes (c : Defs) (event_data_table : BPFPercpuArrayTable) (cpu_id : Nat) :
    Nat → Nat → List Nat
  | 0, _ => []
  | count + 1, index =>
    chunk_bytes (cast_uint64 (slotWord event_data_table index cpu_id)) ++
      bufferBytes c event_data_table cpu_id count (INCREMENT_EVENT_DATA_INDEX c index)

/-- The cursor at the start of string number `count` of a string list whose
strings take `chunk_count` slots each: `index + count * chunk_count` with
wraparound. -/
def stringIndex (c : Defs) (index chunk_count : Nat) : Nat → Nat
  | 0 => index
  | count + 1 =>
    INCREMENT_EVENT_DATA_INDEX_BY c (stringIndex c index chunk_count count) chunk_count

/-- The event `processPerfEvents` emits for one identifier, if any. -/
def emittedEvent (c : Defs) (d : PrivateData) (event_data_table : BPFPercpuArrayTable)
    (event_identifier : Nat) : Option ProbeEvent :=
  match processPerfEvent c d event_data_table event_identifier with
  | .done probe_event => some probe_event
  | _ => none

/-! ## Concrete inputs -/

/-- A small configuration: a ring of 16 slots, and the `max_size()` of a 64-bit
standard library. -/
def exampleDefs : Defs :=
  { EVENT_MAP_SIZE := 16
    BASE_EVENT_TYPE := 0xFFFFFFFFFFFF0000
    VARARGS_TRUNCATION := 0x0011001100110011
    VARARGS_TERMINATOR := 0x0011001100110022
    string_max_size := 0x3FFFFFFFFFFFFFFF
    vector_max_size := 0x7FFFFFFFFFFFFFFF }

/-- A one-column table: slot 0 holds the bytes `61 62 63 00 ..`, slot 1 holds
eight bytes `7a`, and every other slot holds the number 7. -/
def tableNullInFirstSlot : BPFPercpuArrayTable := fun i =>
  if i = 0 then { code := 0, data := [0x636261] }
  else if i = 1 then { code := 0, data := [0x7a7a7a7a7a7a7a7a] }
  else { code := 0, data := [7] }

/-- A one-column table: slot 0 holds the bytes `61 62 63 00 ..` and the backend
reports a failure for every other slot. -/
def tableSecondSlotUnreadable : BPFPercpuArrayTable := fun i =>
  if i = 0 then { code := 0, data := [0x636261] }
  else { code := -1, data := [] }

/-- A two-column table: every row holds `00 ff 00 .. ` in column 0 and the
bytes `01 00 02 00 00 00 00 80` in column 1. -/
def tableTwoColumns : BPFPercpuArrayTable := fun _ =>
  { code := 0, data := [0xff00, 0x8000000000020001] }

/-- A one-column table with a string list of 8-byte strings: `ab`, `c`, and the
truncation sentinel of `exampleDefs` in every slot from 2 on. -/
def tableStringList : BPFPercpuArrayTable := fun i =>
  if i = 0 then { code := 0, data := [0x6261] }
  else if i = 1 then { code := 0, data := [0x63] }
  else { code := 0, data := [0x0011001100110011] }

/-- A tracepoint reader with one entry event that declares two scalar
parameters. -/
def exampleReader : PrivateData :=
  { string_buffer_size := 8
    string_list_size := 4
    probe_name := "example"
    tracepoint := true
    tracepoint_list :=
      [{ entry := true
         parameter_list :=
           [{ name := "fd", type := .SignedInteger }, { name := "flags", type := .UnsignedInteger }] }]
    kprobe_list := []
    probe_event_list := [] }

/-- A tracepoint reader with one entry event whose second parameter has a type
the reader does not know. -/
def exampleReaderUnknown : PrivateData :=
  { exampleReader with
    tracepoint_list :=
      [{ entry := true
         parameter_list :=
           [{ name := "fd", type := .SignedInteger }, { name := "x", type := .Unknown }] }] }

/-- A one-column table with one event at ring position 0: type word with the
magic of `exampleDefs` and index 0, pid 5 and tgid 7 in slot 3, uid 1000 and
gid 3 in slot 4, and the number 42 in every other slot. -/
def tableScalarEvent : BPFPercpuArrayTable := fun i =>
  if i = 0 then { code := 0, data := [0xFFFFFFFFFFFF0000] }
  else if i = 3 then { code := 0, data := [0x0000000700000005] }
  else if i = 4 then { code := 0, data := [0x00000003000003E8] }
  else { code := 0, data := [42] }

/-- A one-column table whose every slot holds a type word with the magic of
`exampleDefs` and type index 5. -/
def tableTypeIndexFive : BPFPercpuArrayTable := fun _ =>
  { code := 0, data := [0xFFFFFFFFFFFF0005] }

/-! ## The staging queue -/

/-- The value `std::cv_status` that `probe_event_list_cv.wait_for` returns: the
reason why the consumer woke up. -/
inductive cv_status
  | no_timeout
  | timeout
  deriving Repr, DecidableEq

/-- The function `ProbeReaderService::getProbeEvents`, given what `wait_for`
returned: the returned list and the state after the call. -/
def getProbeEvents (d : PrivateData) (wake : cv_status) : List ProbeEvent × PrivateData :=
  match wake with
  | .no_timeout => (d.probe_event_list, { d with probe_event_list := [] })
  | .timeout => ([], d)

/-- The end of `ProbeReaderService::processPerfEvents`, after the loop: the
state once `new_event_list` has been appended to the staged list under the
lock. -/
def appendNewEvents (d : PrivateData) (new_event_list : List ProbeEvent) : PrivateData :=
  if new_event_list.isEmpty then d
  else { d with probe_event_list := d.probe_event_list ++ new_event_list }

/-- One step of an interleaving of the producer and the consumer on the staged
list: the producer appends a batch, or the consumer wakes up and drains. -/
inductive QueueStep
  | append (new_event_list : List ProbeEvent)
  | drain (wake : cv_status)
  deriving Repr, DecidableEq

/-- The state after a sequence of steps, and the results of its drain steps in
order. -/
def runQueue : PrivateData → List QueueStep → PrivateData × List (List ProbeEvent)
  | d, [] => (d, [])
  | d, .append new_event_list :: rest => runQueue (appendNewEvents d new_event_list) rest
  | d, .drain wake :: rest =>
    ((runQueue (getProbeEvents d wake).2 rest).1,
      (getProbeEvents d wake).1 :: (runQueue (getProbeEvents d wake).2 rest).2)

/-- The batches a sequence of steps appends, concatenated in append order. -/
def appendedEvents : List QueueStep → List ProbeEvent
  | [] => []
  | .append new_event_list :: rest => new_event_list ++ appendedEvents rest
  | .drain _ :: rest => appendedEvents rest

/-- An event with the given type index and nothing else. -/
def exampleEvent (n : Nat) : ProbeEvent :=
  { event_identifier := n, syscall_number := 0, timestamp := 0, pid := 0, tgid := 0,
    uid := 0, gid := 0, exit_code := none, field_list := [] }

/-- The reader `exampleReader` with one staged event. -/
def exampleReaderStaged : PrivateData :=
  { exampleReader with probe_event_list := [exampleEvent 1] }

/-- A tracepoint reader with one exit event that declares one signed
parameter. -/
def exampleReaderExit : PrivateData :=
  { exampleReader with
    tracepoint_list :=
      [{ entry := false, parameter_list := [{ name := "fd", type := .SignedInteger }] }] }

/-- The table `tableScalarEvent` with the word `0x00000001FFFFFFFE` in slot 5,
the slot of the exit code. -/
def tableExitEvent : BPFPercpuArrayTable := fun i =>
  if i = 5 then { code := 0, data := [0x00000001FFFFFFFE] } else tableScalarEvent i

/-- The table `tableScalarEvent` with a second column that holds `x` in every
row. -/
def tableSecondColumn (x : Nat) : BPFPercpuArrayTable := fun i =>
  { code := (tableScalarEvent i).code, data := (tableScalarEvent i).data ++ [x] }

/-! ## The ring positions a decode reads

For every reader, the ring positions it passes to `get_value`, in the order of
the calls: the reader's own control flow, with the positions recorded. -/

/-- The positions the loop of `readEventBuffer` reads. -/
def readEventBufferLoopReads (is_string : Bool) (c : Defs)
    (event_data_table : BPFPercpuArrayTable) (cpu_id : Nat) :
    Nat → Nat → List Nat → List Nat
  | 0, _, _ => []
  | n + 1, str_index, new_value =>
    let r := readEventData cast_uint64 c event_data_table str_index cpu_id
    if r.ok = false then [str_index]
    else
      match appendChunkBytes is_string (chunk_bytes r.value) new_value with
      | (_, true) => [str_index]
      | (v, false) =>
        str_index :: readEventBufferLoopReads is_string c event_data_table cpu_id n r.index v

/-- The positions `readEventBuffer` reads. -/
def readEventBufferReads (is_string : Bool) (c : Defs)
    (event_data_table : BPFPercpuArrayTable) (index cpu_id string_buffer_size : Nat) :
    List Nat :=
  readEventBufferLoopReads is_string c event_data_table cpu_id (string_buffer_size / 8) index []

/-- The positions the loop of `readEventStringList` reads: the look-ahead slot
of every iteration and the slots of every string. -/
def readEventStringListLoopReads (c : Defs) (event_data_table : BPFPercpuArrayTable)
    (cpu_id string_buffer_size : Nat) : Nat → Nat → List Nat
  | 0, _ => []
  | n + 1, index =>
    let q := readEventData cast_uint64 c event_data_table index cpu_id
    if q.ok = false then [index]
    else if q.value = c.VARARGS_TRUNCATION then [index]
    else if q.value = c.VARARGS_TERMINATOR then [index]
    else
      let s := readEventString c event_data_table index cpu_id string_buffer_size
      if s.ok = false then
        index :: readEventBufferReads true c event_data_table index cpu_id string_buffer_size
      else
        index :: (readEventBufferReads true c event_data_table index cpu_id string_buffer_size ++
          readEventStringListLoopReads c event_data_table cpu_id string_buffer_size n s.index)

/-- The positions `readEventStringList` reads. -/
def readEventStringListReads (c : Defs) (event_data_table : BPFPercpuArrayTable)
    (index cpu_id string_buffer_size string_list_size : Nat) : List Nat :=
  readEventStringListLoopReads c event_data_table cpu_id string_buffer_size string_list_size index

/-- The positions read for one declared parameter. -/
def readParameterReads (c : Defs) (d : PrivateData) (event_data_table : BPFPercpuArrayTable)
    (cpu_id : Nat) (parameter : ProbeParameter) (index : Nat) : List Nat :=
  match parameter.type with
  | .String => readEventBufferReads true c event_data_table index cpu_id d.string_buffer_size
  | .SignedInteger => [index]
  | .UnsignedInteger => [index]
  | .StringList =>
    readEventStringListReads c event_data_table index cpu_id d.string_buffer_size
      d.string_list_size
  | .ByteArray => readEventBufferReads false c event_data_table index cpu_id d.string_buffer_size
  | .Unknown => []

/-- The positions read for the declared parameters, one list per parameter whose
decode is started. -/
def readParameterListReads (c : Defs) (d : PrivateData)
    (event_data_table : BPFPercpuArrayTable) (cpu_id : Nat) :
    List ProbeParameter → Nat → List (List Nat)
  | [], _ => []
  | parameter :: rest, index =>
    readParameterReads c d event_data_table cpu_id parameter index ::
      match readParameter c d event_data_table cpu_id parameter index with
      | none => []
      | some (_, index) => readParameterListReads c d event_data_table cpu_id rest index

/-- The positions read for the header of an event, one list per header word
(the exit code included) whose read is started. -/
def readEventHeaderReads (c : Defs) (d : PrivateData) (event_data_table : BPFPercpuArrayTable)
    (event_identifier : Nat) : List (List Nat) :=
  let probe_list_size := probeListSize d
  let index := eventIndex c event_identifier
  let cpu_id := eventCpu event_identifier
  let r_type := readEventData cast_uint64 c event_data_table index cpu_id
  if r_type.ok = false then [[index]]
  else if (r_type.value &&& 0xFFFFFFFFFFFF0000) ≠ c.BASE_EVENT_TYPE then [[index]]
  else
    let event_type := r_type.value &&& 0xFFFF
    if event_type ≥ probe_list_size then [[index]]
    else
      let r_syscall := readEventData cast_int64 c event_data_table r_type.index cpu_id
      if r_syscall.ok = false then [[index], [r_type.index]]
      else
        let r_timestamp := readEventData cast_uint64 c event_data_table r_syscall.index cpu_id
        if r_timestamp.ok = false then [[index], [r_type.index], [r_syscall.index]]
        else
          let pid_tgid := readEventData cast_uint64 c event_data_table r_timestamp.index cpu_id
          if pid_tgid.ok = false then
            [[index], [r_type.index], [r_syscall.index], [r_timestamp.index]]
          else
            let uid_gid := readEventData cast_uint64 c event_data_table pid_tgid.index cpu_id
            if uid_gid.ok = false then
              [[index], [r_type.index], [r_syscall.index], [r_timestamp.index],
                [pid_tgid.index]]
            else
              match entryAt d event_type with
              | none =>
                [[index], [r_type.index], [r_syscall.index], [r_timestamp.index],
                  [pid_tgid.index]]
              | some entry_event =>
                if entry_event = false then
                  [[index], [r_type.index], [r_syscall.index], [r_timestamp.index],
                    [pid_tgid.index], [uid_gid.index]]
                else
                  [[index], [r_type.index], [r_syscall.index], [r_timestamp.index],
                    [pid_tgid.index]]

/-- The positions read during the decode of one identifier, one list per
field: the header words, the exit code and the declared parameters. -/
def processPerfEventReads (c : Defs) (d : PrivateData)
    (event_data_table : BPFPercpuArrayTable) (event_identifier : Nat) : List (List Nat) :=
  readEventHeaderReads c d event_data_table event_identifier ++
    match readEventHeader c d event_data_table event_identifier with
    | .done (probe_event, index) =>
      match parameterListAt d probe_event.event_identifier with
      | none => []
      | some parameter_list =>
        readParameterListReads c d event_data_table (eventCpu event_identifier) parameter_list
          index
    | _ => []

/-- A one-column table with a string list of 8-byte strings `ab` and `c` in slots
0 and 1, followed by the truncation sentinel of `exampleDefs` in slot 2 and the
number 9 in the other slots. -/
def tableFullStringList : BPFPercpuArrayTable := fun i =>
  if i = 0 then { code := 0, data := [0x6261] }
  else if i = 1 then { code := 0, data := [0x63] }
  else if i = 2 then { code := 0, data := [0x0011001100110011] }
  else { code := 0, data := [9] }

/-! ## The constructors of the service -/

/-- Modelled from the spec: `ManagedTracepointProbe` of a missing header, of
which the constructor uses the name, the two sizes and the descriptor list. -/
structure ManagedTracepointProbe where
  name : String
  string_buffer_size : Nat
  string_list_size : Nat
  tracepoint_list : List ManagedTracepointDescriptor
  deriving Repr, DecidableEq

/-- Modelled from the spec: `KprobeProbe` of a missing header, of which the
constructor uses the name and the descriptor list. -/
structure KprobeProbe where
  name : String
  kprobe_list : List KprobeDescriptor
  deriving Repr, DecidableEq

/-- The constructor `PrivateData(probe_)`: every member has its default
initialiser. -/
def PrivateData.default : PrivateData :=
  { string_buffer_size := 0
    string_list_size := 0
    probe_name := ""
    tracepoint := true
    tracepoint_list := []
    kprobe_list := []
    probe_event_list := [] }

/-- The constructor `ProbeReaderService(eBPFProbe&, ManagedTracepointProbe)`. -/
def ProbeReaderService.ofManagedTracepointProbe (desc : ManagedTracepointProbe) : PrivateData :=
  { PrivateData.default with
    tracepoint := true
    tracepoint_list := desc.tracepoint_list
    probe_name := desc.name
    string_buffer_size := desc.string_buffer_size
    string_list_size := desc.string_list_size }

/-- The constructor `ProbeReaderService(eBPFProbe&, KprobeProbe)`. -/
def ProbeReaderService.ofKprobeProbe (desc : KprobeProbe) : PrivateData :=
  { PrivateData.default with
    tracepoint := false
    kprobe_list := desc.kprobe_list
    probe_name := desc.name }

/-- The empty value a buffer or string-list parameter decodes to when both
sizes are zero. -/
def emptyFieldValue : ProbeParameterType → FieldValue
  | .ByteArray => .bytes []
  | .StringList => .stringList { truncated := false, data := [] }
  | _ => .string []

/-- A kernel-probe descriptor with one entry event that declares a string and an
unsigned integer. -/
def exampleKprobeProbe : KprobeProbe :=
  { name := "example"
    kprobe_list :=
      [{ entry := true
         parameter_list :=
           [{ name := "path", type := .String }, { name := "flags", type := .UnsignedInteger }] }] }

/-! ## Slot budgets -/

/-- The largest number of slots the decode of one parameter can take: one for
an integer, `string_buffer_size / 8` for a string or a byte array, and for a
string list `string_list_size` strings and one sentinel. -/
def parameterBudget (d : PrivateData) (parameter : ProbeParameter) : Nat :=
  match parameter.type with
  | .String => d.string_buffer_size / 8
  | .SignedInteger => 1
  | .UnsignedInteger => 1
  | .StringList => d.string_list_size * (d.string_buffer_size / 8) + 1
  | .ByteArray => d.string_buffer_size / 8
  | .Unknown => 0

/-- The largest number of slots the decode of a parameter list can take. -/
def parameterListBudget (d : PrivateData) : List ProbeParameter → Nat
  | [] => 0
  | parameter :: rest => parameterBudget d parameter + parameterListBudget d rest

/-- A tracepoint reader with a ring-sized byte buffer: one entry event that
declares a byte array of 128 bytes, sixteen slots. -/
def exampleReaderBigBuffer : PrivateData :=
  ProbeReaderService.ofManagedTracepointProbe
    { name := "example"
      string_buffer_size := 128
      string_list_size := 0
      tracepoint_list :=
        [{ entry := true, parameter_list := [{ name := "buf", type := .ByteArray }] }] }

/-- A tracepoint reader whose strings take no slot: one entry event that declares
a string list of at most one string, followed by an unsigned integer. -/
def exampleReaderEmptyStrings : PrivateData :=
  ProbeReaderService.ofManagedTracepointProbe
    { name := "example"
      string_buffer_size := 0
      string_list_size := 1
      tracepoint_list :=
        [{ entry := true
           parameter_list :=
             [{ name := "argv", type := .StringList }, { name := "x", type := .UnsignedInteger }] }] }

/-! ## Exceptions

The readers above describe every call as if `reserve` returned. The functions
named `...Raises` follow the same control flow and tell whether an exception
leaves the call: `std::length_error` from `reserve` in `readEventBuffer`, or
`std::out_of_range` from a bounds-checked `at`. -/

section Basic

variable {α : Type} [Zero α] (cast : Nat → α) (c : Defs) (t : BPFPercpuArrayTable)
  (i cpu : Nat)

theorem readEventSlot_ok_iff :
    (readEventSlot c t i cpu).ok = true ↔ (t i).code = 0 ∧ cpu < (t i).data.length := by
  unfold readEventSlot
  by_cases h1 : (t i).code = 0 <;> by_cases h2 : (t i).data.length ≤ cpu <;>
    simp [h1, h2]
  all_goals omega

theorem readEventSlot_index_of_ok (h : (readEventSlot c t i cpu).ok = true) :
    (readEventSlot c t i cpu).index = (i + 1) % c.EVENT_MAP_SIZE := by
  have h' := (readEventSlot_ok_iff c t i cpu).1 h
  have h2 : ¬ (t i).data.length ≤ cpu := by omega
  simp [readEventSlot, h'.1, h2, INCREMENT_EVENT_DATA_INDEX, INCREMENT_EVENT_DATA_INDEX_BY]

theorem readEventSlot_index_of_fail (h : (readEventSlot c t i cpu).ok = false) :
    (readEventSlot c t i cpu).index = i := by
  unfold readEventSlot at h ⊢
  by_cases h1 : (t i).code = 0 <;> by_cases h2 : (t i).data.length ≤ cpu <;>
    simp_all

theorem readEventSlot_table_data : (readEventSlot c t i cpu).table_data = (t i).data := by
  unfold readEventSlot
  by_cases h1 : (t i).code = 0 <;> by_cases h2 : (t i).data.length ≤ cpu <;>
    simp [h1, h2]

theorem readEventData_ok : (readEventData cast c t i cpu).ok = (readEventSlot c t i cpu).ok := by
  unfold readEventData
  cases h : (readEventSlot c t i cpu).ok <;> simp [h]

theorem readEventData_index :
    (readEventData cast c t i cpu).index = (readEventSlot c t i cpu).index := by
  unfold readEventData
  cases h : (readEventSlot c t i cpu).ok <;> simp [h]

theorem readEventData_of_ok (h : (readEventSlot c t i cpu).ok = true) :
    readEventData cast c t i cpu =
      { ok := true, value := cast (slotWord t i cpu), index := (i + 1) % c.EVENT_MAP_SIZE } := by
  have hi := readEventSlot_index_of_ok c t i cpu h
  have hd := readEventSlot_table_data c t i cpu
  simp [readEventData, h, hi, hd, slotWord]

theorem readEventData_of_fail (h : (readEventSlot c t i cpu).ok = false) :
    readEventData cast c t i cpu = { ok := false, value := 0, index := i } := by
  have hi := readEventSlot_index_of_fail c t i cpu h
  simp [readEventData, h, hi]

end Basic

/-! ## Facts about the buffer readers -/

theorem slotIndex_succ_left (c : Defs) (idx k : Nat) :
    slotIndex c (INCREMENT_EVENT_DATA_INDEX c idx) k = slotIndex c idx (k + 1) := by
  induction k with
  | zero => rfl
  | succ k ih =>
    show INCREMENT_EVENT_DATA_INDEX c (slotIndex c (INCREMENT_EVENT_DATA_INDEX c idx) k) = _
    rw [ih]
    rfl

theorem slotIndex_succ_eq (c : Defs) (idx k : Nat) :
    slotIndex c idx (k + 1) = (idx + (k + 1)) % c.EVENT_MAP_SIZE := by
  induction k with
  | zero => rfl
  | succ k ih =>
    show INCREMENT_EVENT_DATA_INDEX c (slotIndex c idx (k + 1)) = _
    rw [ih]
    simp only [INCREMENT_EVENT_DATA_INDEX, INCREMENT_EVENT_DATA_INDEX_BY]
    rw [Nat.mod_add_mod]
    rfl

theorem appendChunkBytes_false (bs acc : List Nat) :
    appendChunkBytes false bs acc = (acc ++ bs, false) := by
  induction bs generalizing acc with
  | nil => simp [appendChunkBytes]
  | cons b bs ih => simp [appendChunkBytes, ih]

theorem appendChunkBytes_true (bs acc : List Nat) :
    appendChunkBytes true bs acc =
      (acc ++ bs.takeWhile (fun b => b != 0), bs.any (fun b => b == 0)) := by
  induction bs generalizing acc with
  | nil => simp [appendChunkBytes]
  | cons b bs ih =>
    by_cases hb : b = 0
    · simp [appendChunkBytes, hb]
    · simp [appendChunkBytes, hb, ih]

theorem takeWhile_append_of_all {p : Nat → Bool} (l₁ l₂ : List Nat)
    (h : ∀ a ∈ l₁, p a = true) : (l₁ ++ l₂).takeWhile p = l₁ ++ l₂.takeWhile p := by
  induction l₁ with
  | nil => rfl
  | cons a l ih =>
    have ha : p a = true := h a (List.mem_cons_self a l)
    have hl : ∀ b ∈ l, p b = true := fun b hb => h b (List.mem_cons_of_mem a hb)
    simp [List.takeWhile, ha, ih hl]

theorem takeWhile_append_of_any {p : Nat → Bool} (l₁ l₂ : List Nat)
    (h : ∃ a ∈ l₁, p a = false) : (l₁ ++ l₂).takeWhile p = l₁.takeWhile p := by
  induction l₁ with
  | nil => obtain ⟨a, ha, _⟩ := h; cases ha
  | cons a l ih =>
    by_cases ha : p a = true
    · have hl : ∃ b ∈ l, p b = false := by
        obtain ⟨b, hb, hpb⟩ := h
        rcases List.mem_cons.1 hb with rfl | hb
        · rw [ha] at hpb; cases hpb
        · exact ⟨b, hb, hpb⟩
      simp [List.takeWhile, ha, ih hl]
    · simp [List.takeWhile, ha]

/-- The loop of `readEventBuffer` for a byte array whose slots are readable. -/
theorem readEventBufferLoop_bytes (c : Defs) (t : BPFPercpuArrayTable) (cpu n : Nat) :
    ∀ (idx : Nat) (acc : List Nat),
      (∀ j, j < n → (readEventSlot c t (slotIndex c idx j) cpu).ok = true) →
      readEventBufferLoop false c t cpu n idx acc = some (acc ++ bufferBytes c t cpu n idx) := by
  induction n with
  | zero => intro idx acc _; simp [readEventBufferLoop, bufferBytes]
  | succ n ih =>
    intro idx acc h
    have h0 : (readEventSlot c t idx cpu).ok = true := h 0 (Nat.succ_pos n)
    have hn : ∀ j, j < n →
        (readEventSlot c t (slotIndex c (INCREMENT_EVENT_DATA_INDEX c idx) j) cpu).ok = true := by
      intro j hj
      rw [slotIndex_succ_left]
      exact h (j + 1) (Nat.succ_lt_succ hj)
    have ih' := ih (INCREMENT_EVENT_DATA_INDEX c idx)
      (acc ++ chunk_bytes (cast_uint64 (slotWord t idx cpu))) hn
    simp only [readEventBufferLoop, readEventData_of_ok cast_uint64 c t idx cpu h0,
      appendChunkBytes_false, bufferBytes]
    simpa [INCREMENT_EVENT_DATA_INDEX, INCREMENT_EVENT_DATA_INDEX_BY] using ih'

/-- The loop of `readEventBuffer` for a string whose slots are readable: the
bytes before the first null byte of the buffer. -/
theorem readEventBufferLoop_string (c : Defs) (t : BPFPercpuArrayTable) (cpu n : Nat) :
    ∀ (idx : Nat) (acc : List Nat),
      (∀ j, j < n → (readEventSlot c t (slotIndex c idx j) cpu).ok = true) →
      readEventBufferLoop true c t cpu n idx acc =
        some (acc ++ (bufferBytes c t cpu n idx).takeWhile (fun b => b != 0)) := by
  induction n with
  | zero => intro idx acc _; simp [readEventBufferLoop, bufferBytes]
  | succ n ih =>
    intro idx acc h
    have h0 : (readEventSlot c t idx cpu).ok = true := h 0 (Nat.succ_pos n)
    have hn : ∀ j, j < n →
        (readEventSlot c t (slotIndex c (INCREMENT_EVENT_DATA_INDEX c idx) j) cpu).ok = true := by
      intro j hj
      rw [slotIndex_succ_left]
      exact h (j + 1) (Nat.succ_lt_succ hj)
    simp only [readEventBufferLoop, readEventData_of_ok cast_uint64 c t idx cpu h0,
      appendChunkBytes_true, bufferBytes]
    cases hany : (chunk_bytes (cast_uint64 (slotWord t idx cpu))).any (fun b => b == 0) with
    | true =>
      have hex : ∃ a ∈ chunk_bytes (cast_uint64 (slotWord t idx cpu)),
          (fun b => b != 0) a = false := by
        obtain ⟨a, ha, ha0⟩ := List.any_eq_true.1 hany
        exact ⟨a, ha, by simpa using ha0⟩
      rw [takeWhile_append_of_any _ _ hex]
      simp
    | false =>
      have hall : ∀ a ∈ chunk_bytes (cast_uint64 (slotWord t idx cpu)),
          (fun b => b != 0) a = true := by
        intro a ha
        have := List.any_eq_false.1 hany a ha
        simpa using this
      rw [takeWhile_append_of_all _ _ hall]
      have htw : (chunk_bytes (cast_uint64 (slotWord t idx cpu))).takeWhile (fun b => b != 0) =
          chunk_bytes (cast_uint64 (slotWord t idx cpu)) := by
        have := takeWhile_append_of_all (chunk_bytes (cast_uint64 (slotWord t idx cpu))) [] hall
        simpa using this
      have ih' := ih (INCREMENT_EVENT_DATA_INDEX c idx)
        (acc ++ chunk_bytes (cast_uint64 (slotWord t idx cpu))) hn
      rw [htw]
      simpa [INCREMENT_EVENT_DATA_INDEX, INCREMENT_EVENT_DATA_INDEX_BY] using ih'

theorem chunk_bytes_length (w : Nat) : (chunk_bytes w).length = 8 := by
  simp [chunk_bytes]

theorem bufferBytes_length (c : Defs) (t : BPFPercpuArrayTable) (cpu n : Nat) :
    ∀ idx, (bufferBytes c t cpu n idx).length = 8 * n := by
  induction n with
  | zero => intro idx; simp [bufferBytes]
  | succ n ih => intro idx; simp [bufferBytes, ih, chunk_bytes_length]; omega

theorem takeWhile_eq_take_of_first_null (l : List Nat) :
    ∀ k, l[k]? = some 0 → (∀ j, j < k → l[j]? ≠ some 0) →
      l.takeWhile (fun b => b != 0) = l.take k := by
  induction l with
  | nil => intro k h; simp at h
  | cons a l ih =>
    intro k h hf
    cases k with
    | zero =>
      have ha : a = 0 := by simpa using h
      simp [List.takeWhile, ha]
    | succ k =>
      have ha : a ≠ 0 := by
        have := hf 0 (Nat.succ_pos k)
        simpa using this
      have hl : l[k]? = some 0 := by simpa using h
      have hfl : ∀ j, j < k → l[j]? ≠ some 0 := by
        intro j hj
        have := hf (j + 1) (Nat.succ_lt_succ hj)
        simpa using this
      rw [List.takeWhile_cons, ih k hl hfl]
      simp [ha]

theorem readEventBuffer_index (s : Bool) (c : Defs) (t : BPFPercpuArrayTable)
    (idx cpu len : Nat) :
    (readEventBuffer s c t idx cpu len).index = (idx + len / 8) % c.EVENT_MAP_SIZE := by
  unfold readEventBuffer
  cases h : readEventBufferLoop s c t cpu (len / 8) idx [] <;>
    simp [h, INCREMENT_EVENT_DATA_INDEX_BY]

theorem readEventBuffer_ok_iff (s : Bool) (c : Defs) (t : BPFPercpuArrayTable)
    (idx cpu len : Nat) :
    (readEventBuffer s c t idx cpu len).ok = false ↔
      readEventBufferLoop s c t cpu (len / 8) idx [] = none := by
  unfold readEventBuffer
  cases h : readEventBufferLoop s c t cpu (len / 8) idx [] <;> simp [h]

/-! ## C2: strings stop at the first null byte -/

/-- The string reader on a buffer with a null byte: when the `max_len / 8` slots
of the buffer are readable and the bytes they hold have their first null byte at
offset `k`, the decoded string is the first `k` bytes, any table that agrees on
the first `k + 1` bytes decodes to the same string, and the cursor is advanced
by `max_len / 8` slots with wraparound. -/
theorem readEventString_of_first_null (c : Defs) (t : BPFPercpuArrayTable)
    (start cpu max_len k : Nat)
    (hread : ∀ j, j < max_len / 8 → (readEventSlot c t (slotIndex c start j) cpu).ok = true)
    (hnull : (bufferBytes c t cpu (max_len / 8) start)[k]? = some 0)
    (hfirst : ∀ j, j < k → (bufferBytes c t cpu (max_len / 8) start)[j]? ≠ some 0) :
    k < max_len ∧
    (readEventString c t start cpu max_len).ok = true ∧
    (readEventString c t start cpu max_len).value =
      (bufferBytes c t cpu (max_len / 8) start).take k ∧
    (readEventString c t start cpu max_len).value.length = k ∧
    (∀ t2 : BPFPercpuArrayTable,
      (∀ j, j < max_len / 8 → (readEventSlot c t2 (slotIndex c start j) cpu).ok = true) →
      (bufferBytes c t2 cpu (max_len / 8) start).take (k + 1) =
        (bufferBytes c t cpu (max_len / 8) start).take (k + 1) →
      (readEventString c t2 start cpu max_len).value =
        (readEventString c t start cpu max_len).value) ∧
    (readEventString c t start cpu max_len).index =
      (start + max_len / 8) % c.EVENT_MAP_SIZE ∧
    (8 ∣ max_len → (readEventString c t start cpu max_len).index =
      (start + (max_len + 7) / 8) % c.EVENT_MAP_SIZE) := by
  have hlen := bufferBytes_length c t cpu (max_len / 8) start
  have hk : k < (bufferBytes c t cpu (max_len / 8) start).length := by
    by_contra hc
    rw [List.getElem?_eq_none (Nat.le_of_not_lt hc)] at hnull
    cases hnull
  have hval : ∀ t2 : BPFPercpuArrayTable,
      (∀ j, j < max_len / 8 → (readEventSlot c t2 (slotIndex c start j) cpu).ok = true) →
      readEventString c t2 start cpu max_len =
        { ok := true
          value := (bufferBytes c t2 cpu (max_len / 8) start).takeWhile (fun b => b != 0)
          index := (start + max_len / 8) % c.EVENT_MAP_SIZE
          raised := reserveThrows c.string_max_size max_len } := by
    intro t2 h2
    have := readEventBufferLoop_string c t2 cpu (max_len / 8) start [] h2
    simp [readEventString, readEventBuffer, this, INCREMENT_EVENT_DATA_INDEX_BY]
  have htake := takeWhile_eq_take_of_first_null _ k hnull hfirst
  rw [hval t hread, htake]
  refine ⟨by omega, rfl, rfl, ?_, ?_, rfl, ?_⟩
  · simp only [List.length_take]
    omega
  · intro t2 h2 heq
    rw [hval t2 h2]
    show (bufferBytes c t2 cpu (max_len / 8) start).takeWhile (fun b => b != 0) = _
    have hnull2 : (bufferBytes c t2 cpu (max_len / 8) start)[k]? = some 0 := by
      have h1 : ((bufferBytes c t2 cpu (max_len / 8) start).take (k + 1))[k]? = some 0 := by
        rw [heq, List.getElem?_take_of_lt (Nat.lt_succ_self k)]
        exact hnull
      rwa [List.getElem?_take_of_lt (Nat.lt_succ_self k)] at h1
    have hfirst2 : ∀ j, j < k → (bufferBytes c t2 cpu (max_len / 8) start)[j]? ≠ some 0 := by
      intro j hj
      have h1 : ((bufferBytes c t2 cpu (max_len / 8) start).take (k + 1))[j]? =
          ((bufferBytes c t cpu (max_len / 8) start).take (k + 1))[j]? := by rw [heq]
      rw [List.getElem?_take_of_lt (Nat.lt_succ_of_lt hj),
        List.getElem?_take_of_lt (Nat.lt_succ_of_lt hj)] at h1
      rw [h1]
      exact hfirst j hj
    rw [takeWhile_eq_take_of_first_null _ k hnull2 hfirst2]
    have h3 : ((bufferBytes c t2 cpu (max_len / 8) start).take (k + 1)).take k =
        ((bufferBytes c t cpu (max_len / 8) start).take (k + 1)).take k := by rw [heq]
    simpa [List.take_take] using h3
  · intro h8
    have : (max_len + 7) / 8 = max_len / 8 := by omega
    rw [this]

/-- C2: for a string field whose maximum length `max_len` is a multiple of 8, as
the schema declares, whose `ceil(max_len / 8)` slots are readable and whose
fixed buffer of `max_len` bytes has its first null byte at offset `k < max_len`,
the decoded string is exactly the first `k` bytes of the buffer: it has length
`k` and does not depend on the bytes after offset `k`; the cursor after the call
is the start cursor advanced by the full budget `ceil(max_len / 8)` with
wraparound, whatever `k` is. -/
theorem readEventString_null_terminated (c : Defs) (t : BPFPercpuArrayTable)
    (start cpu max_len k : Nat) (h8 : 8 ∣ max_len)
    (hread : ∀ j, j < (max_len + 7) / 8 →
      (readEventSlot c t (slotIndex c start j) cpu).ok = true)
    (hk : k < max_len)
    (hnull : ((bufferBytes c t cpu ((max_len + 7) / 8) start).take max_len)[k]? = some 0)
    (hfirst : ∀ j, j < k →
      ((bufferBytes c t cpu ((max_len + 7) / 8) start).take max_len)[j]? ≠ some 0) :
    (readEventString c t start cpu max_len).ok = true ∧
    (readEventString c t start cpu max_len).value =
      ((bufferBytes c t cpu ((max_len + 7) / 8) start).take max_len).take k ∧
    (readEventString c t start cpu max_len).value.length = k ∧
    (∀ t2 : BPFPercpuArrayTable,
      (∀ j, j < (max_len + 7) / 8 →
        (readEventSlot c t2 (slotIndex c start j) cpu).ok = true) →
      ((bufferBytes c t2 cpu ((max_len + 7) / 8) start).take max_len).take (k + 1) =
        ((bufferBytes c t cpu ((max_len + 7) / 8) start).take max_len).take (k + 1) →
      (readEventString c t2 start cpu max_len).value =
        (readEventString c t start cpu max_len).value) ∧
    (readEventString c t start cpu max_len).index =
      (start + (max_len + 7) / 8) % c.EVENT_MAP_SIZE := by
  have hceil : (max_len + 7) / 8 = max_len / 8 := by omega
  have htake : ∀ t2 : BPFPercpuArrayTable,
      (bufferBytes c t2 cpu (max_len / 8) start).take max_len =
        bufferBytes c t2 cpu (max_len / 8) start := by
    intro t2
    apply List.take_of_length_le
    rw [bufferBytes_length]
    omega
  rw [hceil] at hread hnull hfirst ⊢
  simp only [hceil, htake] at hnull hfirst ⊢
  obtain ⟨_, hok, hval, hlen, hind, hidx, _⟩ :=
    readEventString_of_first_null c t start cpu max_len k hread hnull hfirst
  have _ := hk
  exact ⟨hok, hval, hlen, hind, hidx⟩

/-- C2 at a concrete input: a 16-byte buffer `abc\0..` followed by eight bytes
`zz..` decodes to `abc` and leaves the cursor two slots on. -/
theorem readEventString_null_terminated_witness :
    (readEventString exampleDefs tableNullInFirstSlot 0 0 16).value = [0x61, 0x62, 0x63] ∧
    (readEventString exampleDefs tableNullInFirstSlot 0 0 16).index = 2 := by
  have h := readEventString_null_terminated exampleDefs tableNullInFirstSlot 0 0 16 3
    (by decide) (by decide) (by decide) (by decide) (by decide)
  refine ⟨?_, ?_⟩
  · rw [h.2.1]; decide
  · rw [h.2.2.2.2]; decide

/-! ## C3: byte arrays keep every byte -/

/-- C3: a byte-array field whose maximum length `max_len` is a multiple of 8 and
whose slots are readable decodes to exactly `max_len` bytes, the bytes of the
consumed slots in order, null bytes included. -/
theorem readEventByteArray_length (c : Defs) (t : BPFPercpuArrayTable)
    (start cpu max_len : Nat) (h8 : 8 ∣ max_len)
    (hread : ∀ j, j < max_len / 8 → (readEventSlot c t (slotIndex c start j) cpu).ok = true) :
    (readEventByteArray c t start cpu max_len).ok = true ∧
    (readEventByteArray c t start cpu max_len).value.length = max_len ∧
    (readEventByteArray c t start cpu max_len).value =
      bufferBytes c t cpu (max_len / 8) start := by
  have hloop := readEventBufferLoop_bytes c t cpu (max_len / 8) start [] hread
  have hlen := bufferBytes_length c t cpu (max_len / 8) start
  have hr : readEventByteArray c t start cpu max_len =
      { ok := true, value := bufferBytes c t cpu (max_len / 8) start,
        index := (start + max_len / 8) % c.EVENT_MAP_SIZE,
        raised := reserveThrows c.vector_max_size max_len } := by
    simp [readEventByteArray, readEventBuffer, hloop, INCREMENT_EVENT_DATA_INDEX_BY]
  rw [hr]
  refine ⟨rfl, ?_, rfl⟩
  show (bufferBytes c t cpu (max_len / 8) start).length = max_len
  omega

/-- C3 at a concrete input: 8 bytes read from column 1, with the null bytes
kept. -/
theorem readEventByteArray_length_witness :
    (readEventByteArray exampleDefs tableTwoColumns 15 1 8).value =
      [0x01, 0x00, 0x02, 0x00, 0x00, 0x00, 0x00, 0x80] := by
  rw [(readEventByteArray_length exampleDefs tableTwoColumns 15 1 8 (by decide)
    (by decide)).2.2]
  decide

/-! ## C9: the slot reader -/

/-- C9: `readEventSlot` fails exactly when the status of the row is non-zero or
the column is outside the row; a failure leaves the cursor where it was; a
success moves it to `index + 1` modulo the ring capacity, and `readEventData`
then delivers the entry of the row at column `cpu_id` (converted to the requested
type, which leaves a 64-bit word unchanged). The table is an argument that no
reader returns: it is never modified. -/
theorem readEventSlot_spec (c : Defs) (t : BPFPercpuArrayTable) (index cpu_id : Nat) :
    ((readEventSlot c t index cpu_id).ok = false ↔
      ((t index).code ≠ 0 ∨ cpu_id ≥ (t index).data.length)) ∧
    ((readEventSlot c t index cpu_id).ok = false →
      (readEventSlot c t index cpu_id).index = index ∧
      (readEventData cast_uint64 c t index cpu_id).ok = false ∧
      (readEventData cast_uint64 c t index cpu_id).index = index) ∧
    ((readEventSlot c t index cpu_id).ok = true →
      (readEventSlot c t index cpu_id).index = (index + 1) % c.EVENT_MAP_SIZE ∧
      (readEventData cast_uint64 c t index cpu_id).ok = true ∧
      (readEventData cast_uint64 c t index cpu_id).index = (index + 1) % c.EVENT_MAP_SIZE ∧
      ∃ h : cpu_id < (t index).data.length,
        (readEventData cast_uint64 c t index cpu_id).value =
          (t index).data.get ⟨cpu_id, h⟩ % 2 ^ 64 ∧
        ((t index).data.get ⟨cpu_id, h⟩ < 2 ^ 64 →
          (readEventData cast_uint64 c t index cpu_id).value =
            (t index).data.get ⟨cpu_id, h⟩)) := by
  refine ⟨?_, ?_, ?_⟩
  · rw [← Bool.not_eq_true, readEventSlot_ok_iff, not_and_or, Nat.not_lt]
  · intro hf
    rw [readEventData_of_fail cast_uint64 c t index cpu_id hf]
    exact ⟨readEventSlot_index_of_fail c t index cpu_id hf, rfl, rfl⟩
  · intro hok
    have h' := (readEventSlot_ok_iff c t index cpu_id).1 hok
    rw [readEventData_of_ok cast_uint64 c t index cpu_id hok]
    have hget : slotWord t index cpu_id = (t index).data.get ⟨cpu_id, h'.2⟩ := by
      simp [slotWord, List.getElem?_eq_getElem h'.2]
    refine ⟨readEventSlot_index_of_ok c t index cpu_id hok, rfl, rfl, h'.2, ?_, ?_⟩
    · show cast_uint64 (slotWord t index cpu_id) = _
      rw [hget]
      rfl
    · intro hlt
      show cast_uint64 (slotWord t index cpu_id) = _
      rw [hget]
      exact Nat.mod_eq_of_lt hlt

/-! ## C10: when a buffer read fails -/

/-- The loop of `readEventBuffer` fails exactly when it reaches an unreadable
slot: every slot before it is readable and, for a string, has no null byte. -/
theorem readEventBufferLoop_none_iff (s : Bool) (c : Defs) (t : BPFPercpuArrayTable)
    (cpu n : Nat) :
    ∀ (idx : Nat) (acc : List Nat),
      readEventBufferLoop s c t cpu n idx acc = none ↔
        ∃ j, j < n ∧ (readEventSlot c t (slotIndex c idx j) cpu).ok = false ∧
          ∀ i, i < j → (readEventSlot c t (slotIndex c idx i) cpu).ok = true ∧
            (s = true → 0 ∉ chunk_bytes (cast_uint64 (slotWord t (slotIndex c idx i) cpu))) := by
  induction n with
  | zero =>
    intro idx acc
    simp [readEventBufferLoop]
  | succ n ih =>
    intro idx acc
    cases h0 : (readEventSlot c t idx cpu).ok with
    | false =>
      simp only [readEventBufferLoop, readEventData_of_fail cast_uint64 c t idx cpu h0, if_true,
        true_iff]
      exact ⟨0, Nat.succ_pos n, h0, fun i hi => absurd hi (Nat.not_lt_zero i)⟩
    | true =>
      -- the shape of the right-hand side one slot further
      have shift : ∀ (hz : s = true → 0 ∉ chunk_bytes (cast_uint64 (slotWord t idx cpu))),
          ((∃ j, j < n ∧
              (readEventSlot c t (slotIndex c (INCREMENT_EVENT_DATA_INDEX c idx) j) cpu).ok = false ∧
              ∀ i, i < j →
                (readEventSlot c t (slotIndex c (INCREMENT_EVENT_DATA_INDEX c idx) i) cpu).ok = true ∧
                (s = true → 0 ∉ chunk_bytes (cast_uint64
                  (slotWord t (slotIndex c (INCREMENT_EVENT_DATA_INDEX c idx) i) cpu)))) ↔
            ∃ j, j < n + 1 ∧ (readEventSlot c t (slotIndex c idx j) cpu).ok = false ∧
              ∀ i, i < j → (readEventSlot c t (slotIndex c idx i) cpu).ok = true ∧
                (s = true →
                  0 ∉ chunk_bytes (cast_uint64 (slotWord t (slotIndex c idx i) cpu)))) := by
        intro hz
        constructor
        · rintro ⟨j, hj, hbad, hgood⟩
          refine ⟨j + 1, Nat.succ_lt_succ hj, ?_, ?_⟩
          · rw [← slotIndex_succ_left]; exact hbad
          · intro i hi
            cases i with
            | zero => exact ⟨h0, hz⟩
            | succ i =>
              have := hgood i (Nat.lt_of_succ_lt_succ hi)
              rw [slotIndex_succ_left] at this
              exact this
        · rintro ⟨j, hj, hbad, hgood⟩
          cases j with
          | zero =>
            have hbad0 : (readEventSlot c t idx cpu).ok = false := hbad
            rw [h0] at hbad0
            cases hbad0
          | succ j =>
            refine ⟨j, Nat.lt_of_succ_lt_succ hj, ?_, ?_⟩
            · rw [slotIndex_succ_left]; exact hbad
            · intro i hi
              rw [slotIndex_succ_left]
              exact hgood (i + 1) (Nat.succ_lt_succ hi)
      have hstep : INCREMENT_EVENT_DATA_INDEX c idx = (idx + 1) % c.EVENT_MAP_SIZE := rfl
      cases s with
      | false =>
        have hloop : readEventBufferLoop false c t cpu (n + 1) idx acc =
            readEventBufferLoop false c t cpu n (INCREMENT_EVENT_DATA_INDEX c idx)
              (acc ++ chunk_bytes (cast_uint64 (slotWord t idx cpu))) := by
          simp [readEventBufferLoop, readEventData_of_ok cast_uint64 c t idx cpu h0,
            appendChunkBytes_false, hstep]
        rw [hloop, ih]
        exact shift (fun h => by cases h)
      | true =>
        cases hany : (chunk_bytes (cast_uint64 (slotWord t idx cpu))).any (fun b => b == 0) with
        | true =>
          have hloop : readEventBufferLoop true c t cpu (n + 1) idx acc =
              some (acc ++ (chunk_bytes (cast_uint64 (slotWord t idx cpu))).takeWhile
                (fun b => b != 0)) := by
            simp only [readEventBufferLoop, readEventData_of_ok cast_uint64 c t idx cpu h0,
              appendChunkBytes_true, hany]
            simp
          rw [hloop]
          constructor
          · intro h; cases h
          · rintro ⟨j, _, hbad, hgood⟩
            cases j with
            | zero =>
              have hbad0 : (readEventSlot c t idx cpu).ok = false := hbad
              rw [h0] at hbad0
              cases hbad0
            | succ j =>
              have hz := (hgood 0 (Nat.succ_pos j)).2 rfl
              obtain ⟨a, ha, ha0⟩ := List.any_eq_true.1 hany
              have : a = 0 := by simpa using ha0
              rw [this] at ha
              exact absurd ha hz
        | false =>
          have hz : 0 ∉ chunk_bytes (cast_uint64 (slotWord t idx cpu)) := by
            intro hmem
            have := List.any_eq_false.1 hany 0 hmem
            simp at this
          have hloop : readEventBufferLoop true c t cpu (n + 1) idx acc =
              readEventBufferLoop true c t cpu n (INCREMENT_EVENT_DATA_INDEX c idx)
                (acc ++ (chunk_bytes (cast_uint64 (slotWord t idx cpu))).takeWhile
                  (fun b => b != 0)) := by
            simp only [readEventBufferLoop, readEventData_of_ok cast_uint64 c t idx cpu h0,
              appendChunkBytes_true, hany, hstep]
            simp
          rw [hloop, ih]
          exact shift (fun _ => hz)

/-- C10, as stated, fails: a 16-byte string buffer whose first slot holds a null
byte is decoded although its second slot is unreadable. -/
theorem readEventString_unreadable_slot_ignored :
    ¬ ∀ (c : Defs) (t : BPFPercpuArrayTable) (start cpu max_len : Nat),
      ((readEventString c t start cpu max_len).ok = false ↔
        ∃ j, j < (max_len + 7) / 8 ∧
          (readEventSlot c t (slotIndex c start j) cpu).ok = false) := by
  intro h
  have h' := (h exampleDefs tableSecondSlotUnreadable 0 0 16).2 ⟨1, by decide, by decide⟩
  revert h'
  decide

/-- C10, amended: a byte-array read fails if and only if one of its
`max_len / 8` slots is unreadable; a string read fails if and only if one of its
`max_len / 8` slots is unreadable and every slot before it is readable and holds
no null byte (the slots after the one with the first null byte are not read). -/
theorem readEventBuffer_fails_iff (c : Defs) (t : BPFPercpuArrayTable)
    (start cpu max_len : Nat) :
    ((readEventByteArray c t start cpu max_len).ok = false ↔
      ∃ j, j < max_len / 8 ∧ (readEventSlot c t (slotIndex c start j) cpu).ok = false) ∧
    ((readEventString c t start cpu max_len).ok = false ↔
      ∃ j, j < max_len / 8 ∧ (readEventSlot c t (slotIndex c start j) cpu).ok = false ∧
        ∀ i, i < j → (readEventSlot c t (slotIndex c start i) cpu).ok = true ∧
          0 ∉ chunk_bytes (cast_uint64 (slotWord t (slotIndex c start i) cpu))) := by
  constructor
  · rw [readEventByteArray, readEventBuffer_ok_iff, readEventBufferLoop_none_iff]
    constructor
    · rintro ⟨j, hj, hbad, _⟩
      exact ⟨j, hj, hbad⟩
    · intro hex
      have hex' : ∃ j, j < max_len / 8 ∧
          (readEventSlot c t (slotIndex c start j) cpu).ok = false := hex
      classical
      refine ⟨Nat.find hex', (Nat.find_spec hex').1, (Nat.find_spec hex').2, ?_⟩
      intro i hi
      have hmin := Nat.find_min hex' hi
      refine ⟨?_, fun h => by cases h⟩
      cases hok : (readEventSlot c t (slotIndex c start i) cpu).ok with
      | true => rfl
      | false =>
        exact absurd ⟨Nat.lt_trans hi (Nat.find_spec hex').1, hok⟩ hmin
  · rw [readEventString, readEventBuffer_ok_iff, readEventBufferLoop_none_iff]
    constructor
    · rintro ⟨j, hj, hbad, hgood⟩
      exact ⟨j, hj, hbad, fun i hi => ⟨(hgood i hi).1, (hgood i hi).2 rfl⟩⟩
    · rintro ⟨j, hj, hbad, hgood⟩
      exact ⟨j, hj, hbad, fun i hi => ⟨(hgood i hi).1, fun _ => (hgood i hi).2⟩⟩

/-! ## C4: string lists that end with a sentinel -/

theorem stringIndex_succ_left (c : Defs) (idx cc k : Nat) :
    stringIndex c (INCREMENT_EVENT_DATA_INDEX_BY c idx cc) cc k = stringIndex c idx cc (k + 1) := by
  induction k with
  | zero => rfl
  | succ k ih =>
    show INCREMENT_EVENT_DATA_INDEX_BY c
      (stringIndex c (INCREMENT_EVENT_DATA_INDEX_BY c idx cc) cc k) cc = _
    rw [ih]
    rfl

theorem stringIndex_add_mod (c : Defs) (idx cc m : Nat) :
    ∀ k, (stringIndex c idx cc m + k) % c.EVENT_MAP_SIZE =
      (idx + m * cc + k) % c.EVENT_MAP_SIZE := by
  induction m with
  | zero => intro k; simp [stringIndex]
  | succ m ih =>
    intro k
    show (INCREMENT_EVENT_DATA_INDEX_BY c (stringIndex c idx cc m) cc + k) % c.EVENT_MAP_SIZE = _
    unfold INCREMENT_EVENT_DATA_INDEX_BY
    rw [Nat.mod_add_mod, Nat.add_assoc, ih (cc + k)]
    congr 1
    rw [Nat.succ_mul]
    omega

/-- The loop of `readEventStringList` on `m` strings followed by a sentinel. -/
theorem readEventStringListLoop_sentinel (c : Defs) (t : BPFPercpuArrayTable)
    (cpu len m : Nat) :
    ∀ (n idx : Nat) (value : StringList), m < n →
      (∀ i, i < m →
        (readEventSlot c t (stringIndex c idx (len / 8) i) cpu).ok = true ∧
        cast_uint64 (slotWord t (stringIndex c idx (len / 8) i) cpu) ≠ c.VARARGS_TRUNCATION ∧
        cast_uint64 (slotWord t (stringIndex c idx (len / 8) i) cpu) ≠ c.VARARGS_TERMINATOR ∧
        (readEventString c t (stringIndex c idx (len / 8) i) cpu len).ok = true) →
      (readEventSlot c t (stringIndex c idx (len / 8) m) cpu).ok = true →
      (cast_uint64 (slotWord t (stringIndex c idx (len / 8) m) cpu) = c.VARARGS_TRUNCATION ∨
        cast_uint64 (slotWord t (stringIndex c idx (len / 8) m) cpu) = c.VARARGS_TERMINATOR) →
      readEventStringListLoop c t cpu len n idx value =
        { ok := true
          value :=
            { truncated := decide (cast_uint64 (slotWord t (stringIndex c idx (len / 8) m) cpu) =
                c.VARARGS_TRUNCATION)
              data := value.data ++ (List.range m).map fun i =>
                (readEventString c t (stringIndex c idx (len / 8) i) cpu len).value }
          index := (stringIndex c idx (len / 8) m + 1) % c.EVENT_MAP_SIZE } := by
  induction m with
  | zero =>
    intro n idx value hn _ hok hsent
    obtain ⟨n, rfl⟩ : ∃ k, n = k + 1 := ⟨n - 1, by omega⟩
    have hok0 : (readEventSlot c t idx cpu).ok = true := hok
    have hsent0 : cast_uint64 (slotWord t idx cpu) = c.VARARGS_TRUNCATION ∨
        cast_uint64 (slotWord t idx cpu) = c.VARARGS_TERMINATOR := hsent
    simp only [readEventStringListLoop, readEventData_of_ok cast_uint64 c t idx cpu hok0,
      stringIndex, List.range_zero, List.map_nil, List.append_nil]
    by_cases h1 : cast_uint64 (slotWord t idx cpu) = c.VARARGS_TRUNCATION
    · simp [h1]
    · have h2 : cast_uint64 (slotWord t idx cpu) = c.VARARGS_TERMINATOR := by
        rcases hsent0 with h | h
        · exact absurd h h1
        · exact h
      have h1' : ¬ c.VARARGS_TERMINATOR = c.VARARGS_TRUNCATION := by
        rw [← h2]; exact h1
      simp [h2, h1']
  | succ m ih =>
    intro n idx value hn hstr hok hsent
    obtain ⟨n, rfl⟩ : ∃ k, n = k + 1 := ⟨n - 1, by omega⟩
    obtain ⟨h0ok, h0a, h0b, h0s⟩ := hstr 0 (Nat.succ_pos m)
    have h0ok' : (readEventSlot c t idx cpu).ok = true := h0ok
    have h0a' : cast_uint64 (slotWord t idx cpu) ≠ c.VARARGS_TRUNCATION := h0a
    have h0b' : cast_uint64 (slotWord t idx cpu) ≠ c.VARARGS_TERMINATOR := h0b
    have h0s' : (readEventString c t idx cpu len).ok = true := h0s
    have hidx : (readEventString c t idx cpu len).index =
        INCREMENT_EVENT_DATA_INDEX_BY c idx (len / 8) := readEventBuffer_index true c t idx cpu len
    have hstr' : ∀ i, i < m →
        (readEventSlot c t
          (stringIndex c (INCREMENT_EVENT_DATA_INDEX_BY c idx (len / 8)) (len / 8) i) cpu).ok = true ∧
        cast_uint64 (slotWord t
          (stringIndex c (INCREMENT_EVENT_DATA_INDEX_BY c idx (len / 8)) (len / 8) i) cpu) ≠
            c.VARARGS_TRUNCATION ∧
        cast_uint64 (slotWord t
          (stringIndex c (INCREMENT_EVENT_DATA_INDEX_BY c idx (len / 8)) (len / 8) i) cpu) ≠
            c.VARARGS_TERMINATOR ∧
        (readEventString c t
          (stringIndex c (INCREMENT_EVENT_DATA_INDEX_BY c idx (len / 8)) (len / 8) i) cpu len).ok =
            true := by
      intro i hi
      rw [stringIndex_succ_left]
      exact hstr (i + 1) (Nat.succ_lt_succ hi)
    have ih' := ih n (INCREMENT_EVENT_DATA_INDEX_BY c idx (len / 8))
      { value with data := value.data ++ [(readEventString c t idx cpu len).value] }
      (by omega) hstr'
      (by rw [stringIndex_succ_left]; exact hok)
      (by rw [stringIndex_succ_left]; exact hsent)
    simp only [stringIndex_succ_left] at ih'
    simp only [readEventStringListLoop, readEventData_of_ok cast_uint64 c t idx cpu h0ok',
      h0a', h0b', h0s', hidx, if_false, Bool.true_eq_false]
    rw [ih']
    have hrange : (List.range (m + 1)).map (fun i =>
          (readEventString c t (stringIndex c idx (len / 8) i) cpu len).value) =
        (readEventString c t idx cpu len).value ::
          (List.range m).map (fun i =>
            (readEventString c t (stringIndex c idx (len / 8) (i + 1)) cpu len).value) := by
      rw [List.range_succ_eq_map, List.map_cons, List.map_map]
      rfl
    rw [hrange]
    simp

/-- C4: when `m < max_count` strings, none of which starts with a sentinel word,
are followed by a sentinel word and every read succeeds, `readEventStringList`
returns exactly those `m` strings in order, each as `readEventString` decodes it
at its position; `truncated` is true for `VARARGS_TRUNCATION` and false for
`VARARGS_TERMINATOR` (the two sentinels being distinct words); the cursor ends one
slot past the sentinel, at `start + m * (max_len / 8) + 1` with wraparound. -/
theorem readEventStringList_sentinel (c : Defs) (t : BPFPercpuArrayTable)
    (start cpu max_len max_count m : Nat)
    (hdistinct : c.VARARGS_TRUNCATION ≠ c.VARARGS_TERMINATOR)
    (hm : m < max_count)
    (hstr : ∀ i, i < m →
      (readEventSlot c t (stringIndex c start (max_len / 8) i) cpu).ok = true ∧
      cast_uint64 (slotWord t (stringIndex c start (max_len / 8) i) cpu) ≠ c.VARARGS_TRUNCATION ∧
      cast_uint64 (slotWord t (stringIndex c start (max_len / 8) i) cpu) ≠ c.VARARGS_TERMINATOR ∧
      (readEventString c t (stringIndex c start (max_len / 8) i) cpu max_len).ok = true)
    (hok : (readEventSlot c t (stringIndex c start (max_len / 8) m) cpu).ok = true)
    (hsent :
      cast_uint64 (slotWord t (stringIndex c start (max_len / 8) m) cpu) = c.VARARGS_TRUNCATION ∨
      cast_uint64 (slotWord t (stringIndex c start (max_len / 8) m) cpu) = c.VARARGS_TERMINATOR) :
    (readEventStringList c t start cpu max_len max_count).ok = true ∧
    (readEventStringList c t start cpu max_len max_count).value.data.length = m ∧
    (readEventStringList c t start cpu max_len max_count).value.data =
      (List.range m).map (fun i =>
        (readEventString c t (stringIndex c start (max_len / 8) i) cpu max_len).value) ∧
    (cast_uint64 (slotWord t (stringIndex c start (max_len / 8) m) cpu) = c.VARARGS_TRUNCATION →
      (readEventStringList c t start cpu max_len max_count).value.truncated = true) ∧
    (cast_uint64 (slotWord t (stringIndex c start (max_len / 8) m) cpu) = c.VARARGS_TERMINATOR →
      (readEventStringList c t start cpu max_len max_count).value.truncated = false) ∧
    (readEventStringList c t start cpu max_len max_count).index =
      (start + m * (max_len / 8) + 1) % c.EVENT_MAP_SIZE := by
  have h := readEventStringListLoop_sentinel c t cpu max_len m max_count start
    { truncated := false, data := [] } hm hstr hok hsent
  unfold readEventStringList
  rw [h]
  refine ⟨rfl, by simp, by simp, ?_, ?_, ?_⟩
  · intro h1
    simp [h1]
  · intro h2
    have h1 : cast_uint64 (slotWord t (stringIndex c start (max_len / 8) m) cpu) ≠
        c.VARARGS_TRUNCATION := by
      rw [h2]
      exact fun e => hdistinct e.symm
    simp [h1]
  · exact stringIndex_add_mod c start (max_len / 8) m 1

/-- C4 at a concrete input: the strings `ab` and `c` followed by the truncation
sentinel. -/
theorem readEventStringList_sentinel_witness :
    (readEventStringList exampleDefs tableStringList 0 0 8 5).value =
      { truncated := true, data := [[0x61, 0x62], [0x63]] } ∧
    (readEventStringList exampleDefs tableStringList 0 0 8 5).index = 3 := by
  have h := readEventStringList_sentinel exampleDefs tableStringList 0 0 8 5 2 (by decide)
    (by decide) (by decide) (by decide) (by decide)
  have hd := h.2.2.1
  have ht := h.2.2.2.1 (by decide)
  have hi := h.2.2.2.2.2
  refine ⟨?_, ?_⟩
  · cases hv : (readEventStringList exampleDefs tableStringList 0 0 8 5).value with
    | mk tr da =>
      rw [hv] at hd ht
      simp only at hd ht
      rw [hd, ht]
      decide
  · rw [hi]; decide

/-! ## Facts about the event assembler -/

theorem entryAt_of_lt (d : PrivateData) (et : Nat) (h : et < probeListSize d) :
    ∃ e, entryAt d et = some e := by
  unfold probeListSize at h
  unfold entryAt
  cases htp : d.tracepoint
  · simp only [htp, Bool.false_eq_true, if_false] at h ⊢
    rw [List.get?_eq_get h]
    exact ⟨_, rfl⟩
  · simp only [htp, if_true] at h ⊢
    rw [List.get?_eq_get h]
    exact ⟨_, rfl⟩

theorem parameterListAt_of_lt (d : PrivateData) (et : Nat) (h : et < probeListSize d) :
    ∃ l, parameterListAt d et = some l := by
  unfold probeListSize at h
  unfold parameterListAt
  cases htp : d.tracepoint
  · simp only [htp, Bool.false_eq_true, if_false] at h ⊢
    rw [List.get?_eq_get h]
    exact ⟨_, rfl⟩
  · simp only [htp, if_true] at h ⊢
    rw [List.get?_eq_get h]
    exact ⟨_, rfl⟩

theorem readEventHeader_ne_raised (c : Defs) (d : PrivateData) (t : BPFPercpuArrayTable)
    (id : Nat) : readEventHeader c d t id ≠ .raised := by
  unfold readEventHeader
  simp only []
  split_ifs with h1 h2 h3 h4 h5 h6 h7
  all_goals try (intro h; cases h)
  all_goals
    obtain ⟨e, he⟩ := entryAt_of_lt d _ (Nat.lt_of_not_le h3)
    rw [he]
    cases e <;> simp

theorem land_0xFFFF (w : Nat) : w &&& 0xFFFF = w % 2 ^ 16 :=
  Nat.and_pow_two_sub_one_eq_mod w 16

theorem land_0xFFFFFFFF (w : Nat) : w &&& 0xFFFFFFFF = w % 2 ^ 32 :=
  Nat.and_pow_two_sub_one_eq_mod w 32

theorem cast_uint64_lt (w : Nat) : cast_uint64 w < 2 ^ 64 :=
  Nat.mod_lt _ (by decide)

theorem cast_int_emod (w : Nat) : cast_int w % 2 ^ 32 = ((w % 2 ^ 32 : Nat) : Int) := by
  unfold cast_int
  have hlt : w % 2 ^ 32 < 2 ^ 32 := Nat.mod_lt _ (by decide)
  norm_num at hlt ⊢
  split_ifs <;> omega

/-- The header of an event whose slots are all readable, whose magic matches and
whose type index is in range. -/
theorem readEventHeader_of_all_ok (c : Defs) (d : PrivateData) (t : BPFPercpuArrayTable)
    (id : Nat)
    (hall : ∀ i, (readEventSlot c t i (eventCpu id)).ok = true)
    (hmagic : cast_uint64 (slotWord t (eventIndex c id) (eventCpu id)) &&& 0xFFFFFFFFFFFF0000 =
      c.BASE_EVENT_TYPE)
    (hlt : cast_uint64 (slotWord t (eventIndex c id) (eventCpu id)) &&& 0xFFFF <
      probeListSize d) :
    ∃ ev idx, readEventHeader c d t id = .done (ev, idx) ∧
      ev.event_identifier =
        cast_uint64 (slotWord t (eventIndex c id) (eventCpu id)) &&& 0xFFFF ∧
      ev.pid = cast_int (cast_uint64
        (slotWord t (slotIndex c (eventIndex c id) 3) (eventCpu id)) &&& 0xFFFFFFFF) ∧
      ev.tgid = cast_int (cast_uint64
        (slotWord t (slotIndex c (eventIndex c id) 3) (eventCpu id)) >>> 32) ∧
      ev.uid = cast_uint32 (cast_uint64
        (slotWord t (slotIndex c (eventIndex c id) 4) (eventCpu id)) &&& 0xFFFFFFFF) ∧
      ev.gid = cast_uint32 (cast_uint64
        (slotWord t (slotIndex c (eventIndex c id) 4) (eventCpu id)) >>> 32) ∧
      ev.field_list = [] := by
  obtain ⟨e, he⟩ := entryAt_of_lt d _ hlt
  have h3 : ¬ (cast_uint64 (slotWord t (eventIndex c id) (eventCpu id)) &&& 0xFFFF ≥
      probeListSize d) := Nat.not_le.2 hlt
  unfold readEventHeader
  simp only [readEventData_of_ok _ c t _ (eventCpu id) (hall _)]
  simp only [hmagic, h3, he, ne_eq, not_true_eq_false, if_false, Bool.true_eq_false]
  cases e
  · exact ⟨_, _, rfl, rfl, rfl, rfl, rfl, rfl, rfl⟩
  · exact ⟨_, _, rfl, rfl, rfl, rfl, rfl, rfl, rfl⟩

/-- What a decoded header tells about the first slot of the event. -/
theorem readEventHeader_done (c : Defs) (d : PrivateData) (t : BPFPercpuArrayTable)
    (id : Nat) (ev : ProbeEvent) (idx : Nat)
    (h : readEventHeader c d t id = .done (ev, idx)) :
    (readEventSlot c t (eventIndex c id) (eventCpu id)).ok = true ∧
    cast_uint64 (slotWord t (eventIndex c id) (eventCpu id)) &&& 0xFFFFFFFFFFFF0000 =
      c.BASE_EVENT_TYPE ∧
    ev.event_identifier =
      cast_uint64 (slotWord t (eventIndex c id) (eventCpu id)) &&& 0xFFFF ∧
    ev.event_identifier < probeListSize d ∧
    ev.field_list = [] := by
  unfold readEventHeader at h
  cases hok : (readEventSlot c t (eventIndex c id) (eventCpu id)).ok with
  | false =>
    simp [readEventData_of_fail cast_uint64 c t _ _ hok] at h
  | true =>
    simp only [readEventData_of_ok cast_uint64 c t (eventIndex c id) (eventCpu id) hok] at h
    by_cases h2 : cast_uint64 (slotWord t (eventIndex c id) (eventCpu id)) &&&
        0xFFFFFFFFFFFF0000 = c.BASE_EVENT_TYPE
    · by_cases h3 : cast_uint64 (slotWord t (eventIndex c id) (eventCpu id)) &&& 0xFFFF <
          probeListSize d
      · obtain ⟨e, he⟩ := entryAt_of_lt d _ h3
        have h3' : ¬ (cast_uint64 (slotWord t (eventIndex c id) (eventCpu id)) &&& 0xFFFF ≥
            probeListSize d) := Nat.not_le.2 h3
        simp only [h2, h3', he, ne_eq, not_true_eq_false, if_false, Bool.true_eq_false] at h
        cases e
        all_goals
          split_ifs at h
          all_goals
            cases h
            exact ⟨rfl, h2, rfl, h3, rfl⟩
      · have h3' : cast_uint64 (slotWord t (eventIndex c id) (eventCpu id)) &&& 0xFFFF ≥
            probeListSize d := Nat.le_of_not_lt h3
        simp [h2, h3'] at h
    · simp [h2] at h

theorem processPerfEvent_ne_raised (c : Defs) (d : PrivateData) (t : BPFPercpuArrayTable)
    (id : Nat) : processPerfEvent c d t id ≠ .raised := by
  unfold processPerfEvent
  cases hh : readEventHeader c d t id with
  | raised => exact absurd hh (readEventHeader_ne_raised c d t id)
  | discarded => simp
  | done r =>
    obtain ⟨ev, idx⟩ := r
    obtain ⟨l, hl⟩ := parameterListAt_of_lt d _ (readEventHeader_done c d t id ev idx hh).2.2.2.1
    simp only [hl]
    cases readParameterList c d t (eventCpu id) l idx ev.field_list with
    | none => simp
    | some r => simp

theorem processPerfEventsLoop_eq (c : Defs) (d : PrivateData) (t : BPFPercpuArrayTable)
    (ids : List Nat) :
    ∀ acc, processPerfEventsLoop c d t ids acc =
      some (acc ++ ids.filterMap (emittedEvent c d t)) := by
  induction ids with
  | nil => intro acc; simp [processPerfEventsLoop]
  | cons id rest ih =>
    intro acc
    unfold processPerfEventsLoop
    cases hp : processPerfEvent c d t id with
    | raised => exact absurd hp (processPerfEvent_ne_raised c d t id)
    | discarded => simp [ih, emittedEvent, hp]
    | done ev => simp [ih, emittedEvent, hp]

/-- The events of a batch: one per identifier that decodes, in batch order. -/
theorem processPerfEvents_eq (c : Defs) (d : PrivateData) (t : BPFPercpuArrayTable)
    (ids : List Nat) :
    processPerfEvents c d t ids = some (ids.filterMap (emittedEvent c d t)) := by
  unfold processPerfEvents
  rw [processPerfEventsLoop_eq]
  rfl

theorem readParameterList_scalar (c : Defs) (d : PrivateData) (t : BPFPercpuArrayTable)
    (cpu : Nat) (hall : ∀ i, (readEventSlot c t i cpu).ok = true) (params : List ProbeParameter) :
    ∀ (idx : Nat) (fl : List (String × FieldValue)),
      (∀ p ∈ params, p.type = .SignedInteger ∨ p.type = .UnsignedInteger) →
      ∃ fl2 idx2, readParameterList c d t cpu params idx fl = some (fl2, idx2) := by
  induction params with
  | nil => intro idx fl _; exact ⟨fl, idx, rfl⟩
  | cons p rest ih =>
    intro idx fl hp
    have hrest : ∀ q ∈ rest, q.type = .SignedInteger ∨ q.type = .UnsignedInteger :=
      fun q hq => hp q (List.mem_cons_of_mem p hq)
    rcases hp p (List.mem_cons_self p rest) with h | h
    · simp only [readParameterList, readParameter, h,
        readEventData_of_ok cast_int64 c t idx cpu (hall idx)]
      exact ih _ _ hrest
    · simp only [readParameterList, readParameter, h,
        readEventData_of_ok cast_uint64 c t idx cpu (hall idx)]
      exact ih _ _ hrest

theorem processPerfEvents_singleton (c : Defs) (d : PrivateData) (t : BPFPercpuArrayTable)
    (id : Nat) (ev : ProbeEvent) (h : processPerfEvent c d t id = .done ev) :
    processPerfEvents c d t [id] = some [ev] := by
  simp [processPerfEvents, processPerfEventsLoop, h]

theorem processPerfEvents_discarded (c : Defs) (d : PrivateData) (t : BPFPercpuArrayTable)
    (id : Nat) (h : processPerfEvent c d t id = .discarded) :
    processPerfEvents c d t [id] = some [] ∧
    ∀ xs ys, processPerfEvents c d t (xs ++ id :: ys) = processPerfEvents c d t (xs ++ ys) := by
  have he : emittedEvent c d t id = none := by simp [emittedEvent, h]
  refine ⟨by simp [processPerfEvents, processPerfEventsLoop, h], ?_⟩
  intro xs ys
  simp [processPerfEvents_eq, List.filterMap_append, List.filterMap_cons, he]

/-! ## C1: the packed pid/tgid and uid/gid words -/

/-- C1: when every slot read succeeds, the event-type word has the magic in its
high 48 bits and a type index below the active schema count, and the selected
schema entry declares only signed and unsigned integers, exactly one event is
emitted for the identifier; its pid and tgid are the low and the high 32 bits of
the 4th slot (as `pid_t`, so with the same 32-bit pattern), its uid and gid the
low and the high 32 bits of the 5th slot. -/
theorem processPerfEvents_scalar_event (c : Defs) (d : PrivateData) (t : BPFPercpuArrayTable)
    (id : Nat) (params : List ProbeParameter)
    (hall : ∀ i, (readEventSlot c t i (eventCpu id)).ok = true)
    (hmagic : cast_uint64 (slotWord t (eventIndex c id) (eventCpu id)) &&& 0xFFFFFFFFFFFF0000 =
      c.BASE_EVENT_TYPE)
    (hlt : cast_uint64 (slotWord t (eventIndex c id) (eventCpu id)) % 2 ^ 16 < probeListSize d)
    (hparams : parameterListAt d
      (cast_uint64 (slotWord t (eventIndex c id) (eventCpu id)) % 2 ^ 16) = some params)
    (hscalar : ∀ p ∈ params, p.type = .SignedInteger ∨ p.type = .UnsignedInteger) :
    ∃ ev, processPerfEvents c d t [id] = some [ev] ∧
      ev.pid = cast_int (cast_uint64
        (slotWord t ((eventIndex c id + 3) % c.EVENT_MAP_SIZE) (eventCpu id)) % 2 ^ 32) ∧
      ev.tgid = cast_int (cast_uint64
        (slotWord t ((eventIndex c id + 3) % c.EVENT_MAP_SIZE) (eventCpu id)) / 2 ^ 32) ∧
      ev.pid % 2 ^ 32 = ((cast_uint64
        (slotWord t ((eventIndex c id + 3) % c.EVENT_MAP_SIZE) (eventCpu id)) % 2 ^ 32 : Nat) : Int) ∧
      ev.tgid % 2 ^ 32 = ((cast_uint64
        (slotWord t ((eventIndex c id + 3) % c.EVENT_MAP_SIZE) (eventCpu id)) / 2 ^ 32 : Nat) : Int) ∧
      ev.uid = cast_uint64
        (slotWord t ((eventIndex c id + 4) % c.EVENT_MAP_SIZE) (eventCpu id)) % 2 ^ 32 ∧
      ev.gid = cast_uint64
        (slotWord t ((eventIndex c id + 4) % c.EVENT_MAP_SIZE) (eventCpu id)) / 2 ^ 32 := by
  rw [← land_0xFFFF] at hlt hparams
  obtain ⟨ev, idx, hh, hid, hpid, htgid, huid, hgid, hfl⟩ :=
    readEventHeader_of_all_ok c d t id hall hmagic hlt
  rw [slotIndex_succ_eq] at hpid htgid huid hgid
  obtain ⟨fl2, idx2, hpl⟩ := readParameterList_scalar c d t (eventCpu id) hall params idx
    ev.field_list hscalar
  have hev : processPerfEvent c d t id = .done { ev with field_list := fl2 } := by
    unfold processPerfEvent
    simp only [hh, hid, hparams, hpl]
  have hdiv : ∀ w : Nat, cast_uint64 w / 2 ^ 32 % 2 ^ 32 = cast_uint64 w / 2 ^ 32 := by
    intro w
    apply Nat.mod_eq_of_lt
    have := cast_uint64_lt w
    omega
  refine ⟨_, processPerfEvents_singleton c d t id _ hev, ?_, ?_, ?_, ?_, ?_, ?_⟩
  · show ev.pid = _
    rw [hpid, land_0xFFFFFFFF]
  · show ev.tgid = _
    rw [htgid, Nat.shiftRight_eq_div_pow]
  · show ev.pid % 2 ^ 32 = _
    rw [hpid, land_0xFFFFFFFF, cast_int_emod, Nat.mod_mod]
  · show ev.tgid % 2 ^ 32 = _
    rw [htgid, Nat.shiftRight_eq_div_pow, cast_int_emod, hdiv]
  · show ev.uid = _
    rw [huid, land_0xFFFFFFFF, cast_uint32, Nat.mod_mod]
  · show ev.gid = _
    rw [hgid, Nat.shiftRight_eq_div_pow, cast_uint32, hdiv]

theorem tableScalarEvent_readable (c : Defs) (i : Nat) :
    (readEventSlot c tableScalarEvent i 0).ok = true := by
  rw [readEventSlot_ok_iff]
  unfold tableScalarEvent
  split_ifs <;> exact ⟨rfl, by decide⟩

/-- C1 at a concrete input: pid 5, tgid 7, uid 1000 and gid 3 are read from the
words `0x0000000700000005` and `0x00000003000003E8`. -/
theorem processPerfEvents_scalar_event_witness :
    ∃ ev, processPerfEvents exampleDefs exampleReader tableScalarEvent [0] = some [ev] ∧
      ev.pid = 5 ∧ ev.tgid = 7 ∧ ev.uid = 1000 ∧ ev.gid = 3 := by
  obtain ⟨ev, h, hpid, htgid, _, _, huid, hgid⟩ :=
    processPerfEvents_scalar_event exampleDefs exampleReader tableScalarEvent 0
      [{ name := "fd", type := .SignedInteger }, { name := "flags", type := .UnsignedInteger }]
      (tableScalarEvent_readable exampleDefs) (by decide) (by decide) (by decide) (by decide)
  refine ⟨ev, h, ?_, ?_, ?_, ?_⟩
  · rw [hpid]; decide
  · rw [htgid]; decide
  · rw [huid]; decide
  · rw [hgid]; decide

/-! ## C5: a header with the wrong magic -/

theorem processPerfEvent_of_header_discarded (c : Defs) (d : PrivateData)
    (t : BPFPercpuArrayTable) (id : Nat) (h : readEventHeader c d t id = .discarded) :
    processPerfEvent c d t id = .discarded := by
  unfold processPerfEvent
  rw [h]

/-- C5: an identifier whose event-type word does not carry `BASE_EVENT_TYPE` in
its high 48 bits produces no event, and the rest of the batch is decoded as if
the identifier were not there. -/
theorem processPerfEvents_bad_magic (c : Defs) (d : PrivateData) (t : BPFPercpuArrayTable)
    (id : Nat)
    (hmagic : cast_uint64 (slotWord t (eventIndex c id) (eventCpu id)) &&& 0xFFFFFFFFFFFF0000 ≠
      c.BASE_EVENT_TYPE) :
    processPerfEvent c d t id = .discarded ∧
    processPerfEvents c d t [id] = some [] ∧
    ∀ xs ys : List Nat,
      processPerfEvents c d t (xs ++ id :: ys) = processPerfEvents c d t (xs ++ ys) ∧
      ∃ evs, processPerfEvents c d t (xs ++ id :: ys) = some evs := by
  have hh : readEventHeader c d t id = .discarded := by
    unfold readEventHeader
    cases hok : (readEventSlot c t (eventIndex c id) (eventCpu id)).ok with
    | false => simp [readEventData_of_fail cast_uint64 c t _ _ hok]
    | true =>
      simp only [readEventData_of_ok cast_uint64 c t (eventIndex c id) (eventCpu id) hok]
      simp [hmagic]
  have hp := processPerfEvent_of_header_discarded c d t id hh
  have hd := processPerfEvents_discarded c d t id hp
  exact ⟨hp, hd.1, fun xs ys => ⟨hd.2 xs ys, _, processPerfEvents_eq c d t _⟩⟩

/-- C5 at a concrete input: ring position 1 holds no valid type word, so the
batch `[1, 0]` yields what the batch `[0]` yields. -/
theorem processPerfEvents_bad_magic_witness :
    processPerfEvents exampleDefs exampleReader tableScalarEvent [1, 0] =
      processPerfEvents exampleDefs exampleReader tableScalarEvent [0] :=
  ((processPerfEvents_bad_magic exampleDefs exampleReader tableScalarEvent 1
    (by decide)).2.2 [] [0]).1

/-! ## C6: the type index is checked against the active schema list -/

/-- C6: an identifier whose event-type word passes the magic check and whose low
16 bits are not below the size of the schema list of the active probe kind
produces no event; hence every emitted event has an `event_identifier` below
that size. -/
theorem processPerfEvents_type_index (c : Defs) (d : PrivateData) (t : BPFPercpuArrayTable) :
    (∀ id : Nat,
      (readEventSlot c t (eventIndex c id) (eventCpu id)).ok = true →
      cast_uint64 (slotWord t (eventIndex c id) (eventCpu id)) &&& 0xFFFFFFFFFFFF0000 =
        c.BASE_EVENT_TYPE →
      cast_uint64 (slotWord t (eventIndex c id) (eventCpu id)) % 2 ^ 16 ≥
        (if d.tracepoint then d.tracepoint_list.length else d.kprobe_list.length) →
      processPerfEvent c d t id = .discarded ∧ processPerfEvents c d t [id] = some []) ∧
    (∀ (ids : List Nat) (evs : List ProbeEvent), processPerfEvents c d t ids = some evs →
      ∀ ev ∈ evs, ev.event_identifier <
        (if d.tracepoint then d.tracepoint_list.length else d.kprobe_list.length)) := by
  constructor
  · intro id hok hmagic hge
    rw [← land_0xFFFF] at hge
    have hge' : cast_uint64 (slotWord t (eventIndex c id) (eventCpu id)) &&& 0xFFFF ≥
        probeListSize d := hge
    have hh : readEventHeader c d t id = .discarded := by
      unfold readEventHeader
      simp only [readEventData_of_ok cast_uint64 c t (eventIndex c id) (eventCpu id) hok]
      simp [hmagic, hge']
    have hp := processPerfEvent_of_header_discarded c d t id hh
    exact ⟨hp, (processPerfEvents_discarded c d t id hp).1⟩
  · intro ids evs h ev hev
    rw [processPerfEvents_eq] at h
    cases h
    obtain ⟨id, _, hid⟩ := List.mem_filterMap.1 hev
    unfold emittedEvent at hid
    cases hp : processPerfEvent c d t id with
    | raised => simp [hp] at hid
    | discarded => simp [hp] at hid
    | done ev2 =>
      simp only [hp, Option.some.injEq] at hid
      subst hid
      unfold processPerfEvent at hp
      cases hh : readEventHeader c d t id with
      | raised => simp [hh] at hp
      | discarded => simp [hh] at hp
      | done r =>
        obtain ⟨ev0, idx⟩ := r
        have hlt := (readEventHeader_done c d t id ev0 idx hh).2.2.2.1
        simp only [hh] at hp
        cases hl : parameterListAt d ev0.event_identifier with
        | none => simp [hl] at hp
        | some l =>
          simp only [hl] at hp
          cases hr : readParameterList c d t (eventCpu id) l idx ev0.field_list with
          | none => simp [hr] at hp
          | some r2 =>
            simp only [hr, EventOutcome.done.injEq] at hp
            rw [← hp]
            exact hlt

/-- C6 at a concrete input: type index 5 with a single schema entry. -/
theorem processPerfEvents_type_index_witness :
    processPerfEvents exampleDefs exampleReader tableTypeIndexFive [0] = some [] :=
  ((processPerfEvents_type_index exampleDefs exampleReader tableTypeIndexFive).1 0
    (by decide) (by decide) (by decide)).2

/-! ## C7: events are emitted whole or not at all -/

theorem readParameter_unknown (c : Defs) (d : PrivateData) (t : BPFPercpuArrayTable)
    (cpu : Nat) (p : ProbeParameter) (idx : Nat) (h : p.type = .Unknown) :
    readParameter c d t cpu p idx = none := by
  simp [readParameter, h]

/-- A parameter fails to decode exactly when the reader its type selects
fails, or when no reader is selected. -/
theorem readParameter_none_iff (c : Defs) (d : PrivateData) (t : BPFPercpuArrayTable)
    (cpu : Nat) (p : ProbeParameter) (idx : Nat) :
    readParameter c d t cpu p idx = none ↔
      (p.type = .String ∧ (readEventString c t idx cpu d.string_buffer_size).ok = false) ∨
      (p.type = .SignedInteger ∧ (readEventData cast_int64 c t idx cpu).ok = false) ∨
      (p.type = .UnsignedInteger ∧ (readEventData cast_uint64 c t idx cpu).ok = false) ∨
      (p.type = .StringList ∧
        (readEventStringList c t idx cpu d.string_buffer_size d.string_list_size).ok = false) ∨
      (p.type = .ByteArray ∧ (readEventByteArray c t idx cpu d.string_buffer_size).ok = false) ∨
      p.type = .Unknown := by
  unfold readParameter
  cases hty : p.type
  · cases h : (readEventString c t idx cpu d.string_buffer_size).ok <;> simp [h]
  · cases h : (readEventData cast_int64 c t idx cpu).ok <;> simp [h]
  · cases h : (readEventData cast_uint64 c t idx cpu).ok <;> simp [h]
  · cases h : (readEventStringList c t idx cpu d.string_buffer_size d.string_list_size).ok <;>
      simp [h]
  · cases h : (readEventByteArray c t idx cpu d.string_buffer_size).ok <;> simp [h]
  · simp

theorem readParameterList_append_fail (c : Defs) (d : PrivateData) (t : BPFPercpuArrayTable)
    (cpu : Nat) (p : ProbeParameter) (post : List ProbeParameter) (pre : List ProbeParameter) :
    ∀ (idx0 : Nat) (fl0 fl : List (String × FieldValue)) (idx : Nat),
      readParameterList c d t cpu pre idx0 fl0 = some (fl, idx) →
      readParameter c d t cpu p idx = none →
      readParameterList c d t cpu (pre ++ p :: post) idx0 fl0 = none := by
  induction pre with
  | nil =>
    intro idx0 fl0 fl idx hpre hfail
    simp only [readParameterList, Option.some.injEq, Prod.mk.injEq] at hpre
    obtain ⟨_, rfl⟩ := hpre
    simp [readParameterList, hfail]
  | cons q pre ih =>
    intro idx0 fl0 fl idx hpre hfail
    simp only [List.cons_append, readParameterList] at hpre ⊢
    cases hq : readParameter c d t cpu q idx0 with
    | none => simp [hq] at hpre
    | some r =>
      obtain ⟨v, i⟩ := r
      simp only [hq] at hpre ⊢
      exact ih _ _ _ _ hpre hfail

/-- Every emitted event carries the field list decoded from the whole parameter
list of its schema entry. -/
theorem processPerfEvent_done_complete (c : Defs) (d : PrivateData) (t : BPFPercpuArrayTable)
    (id : Nat) (ev : ProbeEvent) (h : processPerfEvent c d t id = .done ev) :
    ∃ ev0 idx0 params idx,
      readEventHeader c d t id = .done (ev0, idx0) ∧
      parameterListAt d ev0.event_identifier = some params ∧
      readParameterList c d t (eventCpu id) params idx0 ev0.field_list =
        some (ev.field_list, idx) ∧
      ev = { ev0 with field_list := ev.field_list } := by
  unfold processPerfEvent at h
  cases hh : readEventHeader c d t id with
  | raised => simp [hh] at h
  | discarded => simp [hh] at h
  | done r =>
    obtain ⟨ev0, idx0⟩ := r
    simp only [hh] at h
    cases hl : parameterListAt d ev0.event_identifier with
    | none => simp [hl] at h
    | some l =>
      simp only [hl] at h
      cases hr : readParameterList c d t (eventCpu id) l idx0 ev0.field_list with
      | none => simp [hr] at h
      | some r2 =>
        obtain ⟨fl, idx⟩ := r2
        simp only [hr, EventOutcome.done.injEq] at h
        subst h
        exact ⟨ev0, idx0, l, idx, rfl, hl, hr, rfl⟩

theorem readParameterList_unknown (c : Defs) (d : PrivateData) (t : BPFPercpuArrayTable)
    (cpu : Nat) (params : List ProbeParameter) :
    ∀ (idx : Nat) (fl : List (String × FieldValue)),
      (∃ p ∈ params, p.type = .Unknown) →
      readParameterList c d t cpu params idx fl = none := by
  induction params with
  | nil => intro idx fl h; obtain ⟨p, hp, _⟩ := h; cases hp
  | cons q rest ih =>
    intro idx fl h
    simp only [readParameterList]
    cases hq : readParameter c d t cpu q idx with
    | none => rfl
    | some r =>
      obtain ⟨v, i⟩ := r
      obtain ⟨p, hp, hty⟩ := h
      rcases List.mem_cons.1 hp with rfl | hp
      · rw [readParameter_unknown c d t cpu p idx hty] at hq
        cases hq
      · exact ih _ _ ⟨p, hp, hty⟩

/-- C7: when the header of an identifier is decoded and either, after the
parameters `pre` have been decoded, the next declared parameter `p` fails to
decode, or the schema entry declares a parameter whose type is none of String,
SignedInteger, UnsignedInteger, StringList and ByteArray, no event is emitted
for the identifier, whatever was decoded before; a batch yields what it yields
without that identifier. -/
theorem processPerfEvents_atomic (c : Defs) (d : PrivateData) (t : BPFPercpuArrayTable)
    (id : Nat) (ev0 : ProbeEvent) (idx0 : Nat) (params : List ProbeParameter)
    (hheader : readEventHeader c d t id = .done (ev0, idx0))
    (hparams : parameterListAt d ev0.event_identifier = some params)
    (hfail :
      (∃ (pre : List ProbeParameter) (p : ProbeParameter) (post : List ProbeParameter)
          (fl : List (String × FieldValue)) (idx : Nat),
        params = pre ++ p :: post ∧
        readParameterList c d t (eventCpu id) pre idx0 ev0.field_list = some (fl, idx) ∧
        readParameter c d t (eventCpu id) p idx = none) ∨
      (∃ p ∈ params, p.type ≠ .String ∧ p.type ≠ .SignedInteger ∧
        p.type ≠ .UnsignedInteger ∧ p.type ≠ .StringList ∧ p.type ≠ .ByteArray)) :
    processPerfEvent c d t id = .discarded ∧
    emittedEvent c d t id = none ∧
    processPerfEvents c d t [id] = some [] ∧
    ∀ xs ys : List Nat,
      processPerfEvents c d t (xs ++ id :: ys) = processPerfEvents c d t (xs ++ ys) := by
  have hlist : readParameterList c d t (eventCpu id) params idx0 ev0.field_list = none := by
    rcases hfail with ⟨pre, p, post, fl, idx, rfl, hpre, hnone⟩ | ⟨p, hp, h1, h2, h3, h4, h5⟩
    · exact readParameterList_append_fail c d t (eventCpu id) p post pre idx0 ev0.field_list
        fl idx hpre hnone
    · apply readParameterList_unknown
      refine ⟨p, hp, ?_⟩
      cases hty : p.type <;> simp_all
  have hp : processPerfEvent c d t id = .discarded := by
    unfold processPerfEvent
    simp only [hheader, hparams, hlist]
  have hd := processPerfEvents_discarded c d t id hp
  exact ⟨hp, by simp [emittedEvent, hp], hd.1, hd.2⟩

/-- C7 at a concrete input: the first parameter decodes to 42, the second has an
unknown type, and nothing is emitted. -/
theorem processPerfEvents_atomic_witness :
    processPerfEvents exampleDefs exampleReaderUnknown tableScalarEvent [0] = some [] :=
  (processPerfEvents_atomic exampleDefs exampleReaderUnknown tableScalarEvent 0
    { event_identifier := 0, syscall_number := 42, timestamp := 42, pid := 5, tgid := 7,
      uid := 1000, gid := 3, exit_code := none, field_list := [] }
    5 [{ name := "fd", type := .SignedInteger }, { name := "x", type := .Unknown }]
    (by decide) (by decide)
    (Or.inl ⟨[{ name := "fd", type := .SignedInteger }], { name := "x", type := .Unknown }, [],
      [("fd", .signed 42)], 6, by decide, by decide, by decide⟩)).2.2.1

/-! ## C8: failures are local to one identifier -/

/-- C8: the events of the batch `xs ++ ys` are the events of `xs` followed by the
events of `ys`; every identifier contributes at most one event, the one it
yields as a batch of its own, and the output follows the order of the
identifiers. -/
theorem processPerfEvents_append (c : Defs) (d : PrivateData) (t : BPFPercpuArrayTable)
    (xs ys : List Nat) :
    (∃ a b, processPerfEvents c d t xs = some a ∧ processPerfEvents c d t ys = some b ∧
      processPerfEvents c d t (xs ++ ys) = some (a ++ b)) ∧
    (∀ id, ∃ l, processPerfEvents c d t [id] = some l ∧ l.length ≤ 1 ∧
      l = (emittedEvent c d t id).toList) ∧
    processPerfEvents c d t xs =
      some ((xs.map fun id => (processPerfEvents c d t [id]).getD []).flatten) ∧
    processPerfEvents c d t xs = some (xs.filterMap (emittedEvent c d t)) := by
  refine ⟨⟨_, _, processPerfEvents_eq c d t xs, processPerfEvents_eq c d t ys, ?_⟩, ?_, ?_,
    processPerfEvents_eq c d t xs⟩
  · rw [processPerfEvents_eq, List.filterMap_append]
  · intro id
    refine ⟨_, processPerfEvents_eq c d t [id], ?_, ?_⟩
    · cases h : emittedEvent c d t id <;> simp [List.filterMap_cons, h]
    · cases h : emittedEvent c d t id <;> simp [List.filterMap_cons, h]
  · have hone : (fun id => (processPerfEvents c d t [id]).getD []) =
        fun id => (emittedEvent c d t id).toList := by
      funext id
      rw [processPerfEvents_eq]
      cases h : emittedEvent c d t id <;> simp [List.filterMap_cons, h]
    rw [processPerfEvents_eq, hone]
    congr 1
    induction xs with
    | nil => rfl
    | cons x xs ih =>
      rw [List.map_cons, List.flatten_cons, ← ih]
      cases h : emittedEvent c d t x <;> simp [List.filterMap_cons, h]

/-! ## C11: draining the staged batch -/

/-- C11, as stated, fails: when `wait_for` times out, `getProbeEvents` returns
nothing and the staged event stays staged. -/
theorem getProbeEvents_timeout_keeps_staged :
    ¬ ∀ (d : PrivateData) (wake : cv_status),
      (getProbeEvents d wake).1 = d.probe_event_list ∧
      (getProbeEvents d wake).2.probe_event_list = [] := by
  intro h
  have h' := h exampleReaderStaged .timeout
  revert h'
  decide

/-- C11, amended: woken by a signal (`wait_for` returns `no_timeout`),
`getProbeEvents` returns the entire staged batch and leaves the staged batch
empty; on a timeout it returns the empty sequence and leaves the staged batch as
it was; with nothing staged it returns the empty sequence in both cases. Nothing
else of the state changes. -/
theorem getProbeEvents_spec (d : PrivateData) :
    ((getProbeEvents d .no_timeout).1 = d.probe_event_list ∧
      (getProbeEvents d .no_timeout).2 = { d with probe_event_list := [] }) ∧
    ((getProbeEvents d .timeout).1 = [] ∧ (getProbeEvents d .timeout).2 = d) ∧
    (d.probe_event_list = [] →
      ∀ wake, (getProbeEvents d wake).1 = [] ∧ (getProbeEvents d wake).2 = d) := by
  refine ⟨⟨rfl, rfl⟩, ⟨rfl, rfl⟩, ?_⟩
  intro h wake
  cases wake
  · refine ⟨h, ?_⟩
    show { d with probe_event_list := [] } = d
    cases d
    simp_all
  · exact ⟨rfl, rfl⟩

/-! ## C12: no staged event is duplicated or dropped -/

theorem appendNewEvents_probe_event_list (d : PrivateData) (l : List ProbeEvent) :
    (appendNewEvents d l).probe_event_list = d.probe_event_list ++ l := by
  unfold appendNewEvents
  cases l with
  | nil => simp
  | cons a l => simp

theorem getProbeEvents_conserves (d : PrivateData) (wake : cv_status) :
    (getProbeEvents d wake).1 ++ (getProbeEvents d wake).2.probe_event_list =
      d.probe_event_list := by
  cases wake <;> simp [getProbeEvents]

theorem runQueue_conserves (steps : List QueueStep) :
    ∀ d : PrivateData,
      (runQueue d steps).2.flatten ++ (runQueue d steps).1.probe_event_list =
        d.probe_event_list ++ appendedEvents steps := by
  induction steps with
  | nil => intro d; simp [runQueue, appendedEvents]
  | cons s rest ih =>
    intro d
    cases s with
    | append l =>
      simp only [runQueue, appendedEvents]
      rw [ih, appendNewEvents_probe_event_list, List.append_assoc]
    | drain wake =>
      simp only [runQueue, appendedEvents, List.flatten_cons, List.append_assoc]
      rw [ih, ← List.append_assoc, getProbeEvents_conserves]

/-- C12: for every interleaving of append steps and drain steps (woken by a
signal or by a timeout) that starts from an empty staged list, the drain results
in order, followed by what is still staged, are exactly the appended batches in
append order: no event is duplicated or dropped, and every event occurs in the
drain results and the staged list together as often as it was appended. -/
theorem runQueue_no_loss_no_duplicate (d : PrivateData) (steps : List QueueStep)
    (hempty : d.probe_event_list = []) :
    (runQueue d steps).2.flatten ++ (runQueue d steps).1.probe_event_list =
      appendedEvents steps ∧
    (runQueue d steps).2.flatten <+: appendedEvents steps ∧
    ∀ e : ProbeEvent,
      (runQueue d steps).2.flatten.count e + (runQueue d steps).1.probe_event_list.count e =
        (appendedEvents steps).count e := by
  have h := runQueue_conserves steps d
  rw [hempty, List.nil_append] at h
  refine ⟨h, ⟨_, h⟩, ?_⟩
  intro e
  rw [← h, List.count_append]

/-- C12 at a concrete input: two appended batches, a drain that times out in
between and a signalled drain at the end. -/
theorem runQueue_no_loss_no_duplicate_witness :
    exampleReader.probe_event_list = [] ∧
    (runQueue exampleReader
      [.append [exampleEvent 1], .drain .timeout, .append [exampleEvent 2],
        .drain .no_timeout]).2.flatten ++
      (runQueue exampleReader
        [.append [exampleEvent 1], .drain .timeout, .append [exampleEvent 2],
          .drain .no_timeout]).1.probe_event_list =
      [exampleEvent 1, exampleEvent 2] :=
  ⟨by decide, (runQueue_no_loss_no_duplicate exampleReader
    [.append [exampleEvent 1], .drain .timeout, .append [exampleEvent 2], .drain .no_timeout]
    (by decide)).1⟩

theorem eventIndex_eq (c : Defs) (id : Nat) :
    eventIndex c id = id % 2 ^ 24 % c.EVENT_MAP_SIZE := by
  unfold eventIndex
  rw [show (0x00FFFFFF : Nat) = 2 ^ 24 - 1 from rfl, Nat.and_pow_two_sub_one_eq_mod]

theorem eventCpu_eq (id : Nat) : eventCpu id = id / 2 ^ 28 % 2 ^ 8 := by
  unfold eventCpu
  rw [show (0x000000FF : Nat) = 2 ^ 8 - 1 from rfl, Nat.and_pow_two_sub_one_eq_mod,
    Nat.shiftRight_eq_div_pow]

/-- C14: for a 32-bit identifier the starting ring index is
`(id mod 2^24) mod EVENT_MAP_SIZE`, which is below `EVENT_MAP_SIZE`; the CPU
column is `(id >> 28) & 0xFF`, the bits of `id` from bit 28 on; two identifiers
that differ only in bits 24 to 27 have the same index and the same column. -/
theorem eventIndex_eventCpu_spec (c : Defs) (id : Nat) (hcap : 0 < c.EVENT_MAP_SIZE)
    (hid : id < 2 ^ 32) :
    eventIndex c id = id % 2 ^ 24 % c.EVENT_MAP_SIZE ∧
    eventIndex c id < c.EVENT_MAP_SIZE ∧
    eventCpu id = (id >>> 28) &&& 0xFF ∧
    eventCpu id = id / 2 ^ 28 % 2 ^ 8 ∧
    eventCpu id = id / 2 ^ 28 ∧
    ∀ lo mid mid2 hi : Nat, lo < 2 ^ 24 → mid < 2 ^ 4 → mid2 < 2 ^ 4 →
      id = lo + 2 ^ 24 * mid + 2 ^ 28 * hi →
      eventIndex c (lo + 2 ^ 24 * mid2 + 2 ^ 28 * hi) = eventIndex c id ∧
      eventCpu (lo + 2 ^ 24 * mid2 + 2 ^ 28 * hi) = eventCpu id ∧
      eventIndex c id = lo % c.EVENT_MAP_SIZE ∧
      eventCpu id = hi := by
  refine ⟨eventIndex_eq c id, ?_, rfl, eventCpu_eq id, ?_, ?_⟩
  · rw [eventIndex_eq]
    exact Nat.mod_lt _ hcap
  · rw [eventCpu_eq]
    apply Nat.mod_eq_of_lt
    norm_num at hid ⊢
    omega
  · intro lo mid mid2 hi hlo hmid hmid2 hsplit
    have h1 : (lo + 2 ^ 24 * mid2 + 2 ^ 28 * hi) % 2 ^ 24 = lo := by
      norm_num at hlo ⊢
      omega
    have h2 : id % 2 ^ 24 = lo := by
      norm_num at hlo hsplit ⊢
      omega
    have h3 : (lo + 2 ^ 24 * mid2 + 2 ^ 28 * hi) / 2 ^ 28 % 2 ^ 8 = hi := by
      norm_num at hlo hmid2 hid hsplit hmid ⊢
      omega
    have h4 : id / 2 ^ 28 % 2 ^ 8 = hi := by
      norm_num at hlo hmid hid hsplit ⊢
      omega
    rw [eventIndex_eq, eventIndex_eq, eventCpu_eq, eventCpu_eq, h1, h2, h3, h4]
    exact ⟨rfl, rfl, rfl, rfl⟩

/-- C14 at a concrete input: `0x3F000025` has index 0x25 mod 16 = 5 and column
3, whatever its bits 24 to 27. -/
theorem eventIndex_eventCpu_spec_witness :
    eventIndex exampleDefs 0x3F000025 = 5 ∧ eventCpu 0x3F000025 = 3 ∧
    eventIndex exampleDefs 0x30000025 = 5 ∧ eventCpu 0x30000025 = 3 := by
  have h := eventIndex_eventCpu_spec exampleDefs 0x3F000025 (by decide) (by decide)
  have h2 := h.2.2.2.2.2 0x25 15 0 3 (by decide) (by decide) (by decide) (by decide)
  refine ⟨?_, ?_, ?_, ?_⟩
  · rw [h.1]; decide
  · rw [h.2.2.2.2.1]; decide
  · rw [show (0x30000025 : Nat) = 0x25 + 2 ^ 24 * 0 + 2 ^ 28 * 3 from by decide, h2.1, h.1]
    decide
  · rw [show (0x30000025 : Nat) = 0x25 + 2 ^ 24 * 0 + 2 ^ 28 * 3 from by decide, h2.2.1,
      h.2.2.2.2.1]
    decide

/-! ## C15: when decoding raises -/

theorem readEventData_step {α : Type} [Zero α] (cast : Nat → α) (c : Defs)
    (t : BPFPercpuArrayTable) (i cpu : Nat) :
    readEventData cast c t i cpu = { ok := false, value := 0, index := i } ∨
    ((readEventSlot c t i cpu).ok = true ∧
      readEventData cast c t i cpu =
        { ok := true, value := cast (slotWord t i cpu),
          index := INCREMENT_EVENT_DATA_INDEX c i }) := by
  cases hok : (readEventSlot c t i cpu).ok with
  | false => exact Or.inl (readEventData_of_fail cast c t i cpu hok)
  | true => exact Or.inr ⟨rfl, readEventData_of_ok cast c t i cpu hok⟩

/-- What a decoded header tells about the slots it was read from: the five
header words are readable, an exit event has a sixth readable word, and the
cursor ends right after them. -/
theorem readEventHeader_done_slots (c : Defs) (d : PrivateData) (t : BPFPercpuArrayTable)
    (id : Nat) (ev : ProbeEvent) (idx : Nat)
    (h : readEventHeader c d t id = .done (ev, idx)) :
    ∃ e, entryAt d ev.event_identifier = some e ∧
      (∀ j, j < (if e = true then 5 else 6) →
        (readEventSlot c t (slotIndex c (eventIndex c id) j) (eventCpu id)).ok = true) ∧
      idx = slotIndex c (eventIndex c id) (if e = true then 5 else 6) ∧
      ev.exit_code = (if e = true then none
        else some (cast_int (slotWord t (slotIndex c (eventIndex c id) 5) (eventCpu id)))) := by
  have hd := readEventHeader_done c d t id ev idx h
  obtain ⟨e, he⟩ := entryAt_of_lt d _ hd.2.2.2.1
  rw [hd.2.2.1] at he
  have hlt : cast_uint64 (slotWord t (eventIndex c id) (eventCpu id)) &&& 0xFFFF <
      probeListSize d := by
    rw [← hd.2.2.1]; exact hd.2.2.2.1
  have h3 : ¬ (cast_uint64 (slotWord t (eventIndex c id) (eventCpu id)) &&& 0xFFFF ≥
      probeListSize d) := Nat.not_le.2 hlt
  unfold readEventHeader at h
  rcases readEventData_step cast_uint64 c t (eventIndex c id) (eventCpu id) with h0 | ⟨k0, h0⟩
  · simp [h0] at h
  simp only [h0, hd.2.1, h3, he, ne_eq, not_true_eq_false, if_false, Bool.true_eq_false] at h
  rcases readEventData_step cast_int64 c t (INCREMENT_EVENT_DATA_INDEX c (eventIndex c id))
    (eventCpu id) with h1 | ⟨k1, h1⟩
  · simp [h1] at h
  simp only [h1, if_false, Bool.true_eq_false] at h
  rcases readEventData_step cast_uint64 c t
    (INCREMENT_EVENT_DATA_INDEX c (INCREMENT_EVENT_DATA_INDEX c (eventIndex c id)))
    (eventCpu id) with h2 | ⟨k2, h2⟩
  · simp [h2] at h
  simp only [h2, if_false, Bool.true_eq_false] at h
  rcases readEventData_step cast_uint64 c t
    (INCREMENT_EVENT_DATA_INDEX c
      (INCREMENT_EVENT_DATA_INDEX c (INCREMENT_EVENT_DATA_INDEX c (eventIndex c id))))
    (eventCpu id) with h4 | ⟨k3, h4⟩
  · simp [h4] at h
  simp only [h4, if_false, Bool.true_eq_false] at h
  rcases readEventData_step cast_uint64 c t
    (INCREMENT_EVENT_DATA_INDEX c (INCREMENT_EVENT_DATA_INDEX c
      (INCREMENT_EVENT_DATA_INDEX c (INCREMENT_EVENT_DATA_INDEX c (eventIndex c id)))))
    (eventCpu id) with h5 | ⟨k4, h5⟩
  · simp [h5] at h
  simp only [h5, if_false, Bool.true_eq_false] at h
  have hfive : ∀ j, j < 5 →
      (readEventSlot c t (slotIndex c (eventIndex c id) j) (eventCpu id)).ok = true := by
    intro j hj
    interval_cases j
    · exact k0
    · exact k1
    · exact k2
    · exact k3
    · exact k4
  cases e with
  | true =>
    simp only [if_false, Bool.true_eq_false] at h
    cases h
    exact ⟨true, he, by simpa using hfive, rfl, rfl⟩
  | false =>
    simp only [if_true] at h
    rcases readEventData_step cast_int c t
      (INCREMENT_EVENT_DATA_INDEX c (INCREMENT_EVENT_DATA_INDEX c (INCREMENT_EVENT_DATA_INDEX c
        (INCREMENT_EVENT_DATA_INDEX c (INCREMENT_EVENT_DATA_INDEX c (eventIndex c id))))))
      (eventCpu id) with h6 | ⟨k5, h6⟩
    · simp [h6] at h
    simp only [h6, if_false, Bool.true_eq_false] at h
    cases h
    refine ⟨false, he, ?_, rfl, rfl⟩
    intro j hj
    have hj6 : j < 6 := by simpa using hj
    interval_cases j
    · exact k0
    · exact k1
    · exact k2
    · exact k3
    · exact k4
    · exact k5

theorem cast_int_range (w : Nat) : -2 ^ 31 ≤ cast_int w ∧ cast_int w < 2 ^ 31 := by
  unfold cast_int
  have hlt : w % 2 ^ 32 < 2 ^ 32 := Nat.mod_lt _ (by decide)
  norm_num at hlt ⊢
  split_ifs <;> omega

/-- C13: for a decoded event whose schema entry is an entry event, no exit-code
slot is consumed: the event has no exit code and its parameters are decoded from
`start + 5` (wrapping). Otherwise one further slot, at `start + 5`, is read: the
exit code is its word truncated to the low 32 bits and read as a signed
two's-complement integer, and the parameters are decoded from `start + 6`
(wrapping). -/
theorem processPerfEvent_exit_code (c : Defs) (d : PrivateData) (t : BPFPercpuArrayTable)
    (id : Nat) (ev : ProbeEvent) (h : processPerfEvent c d t id = .done ev) :
    ∃ e params idx,
      entryAt d ev.event_identifier = some e ∧
      parameterListAt d ev.event_identifier = some params ∧
      (e = true →
        ev.exit_code = none ∧
        readParameterList c d t (eventCpu id) params
          ((eventIndex c id + 5) % c.EVENT_MAP_SIZE) [] = some (ev.field_list, idx)) ∧
      (e = false →
        (readEventSlot c t ((eventIndex c id + 5) % c.EVENT_MAP_SIZE) (eventCpu id)).ok = true ∧
        (∃ x : Int, ev.exit_code = some x ∧
          x = cast_int (slotWord t ((eventIndex c id + 5) % c.EVENT_MAP_SIZE) (eventCpu id)) ∧
          -2 ^ 31 ≤ x ∧ x < 2 ^ 31 ∧
          x % 2 ^ 32 =
            ((slotWord t ((eventIndex c id + 5) % c.EVENT_MAP_SIZE) (eventCpu id) % 2 ^ 32 : Nat) :
              Int)) ∧
        readParameterList c d t (eventCpu id) params
          ((eventIndex c id + 6) % c.EVENT_MAP_SIZE) [] = some (ev.field_list, idx)) := by
  obtain ⟨ev0, idx0, params, idx, hh, hp, hr, hev⟩ := processPerfEvent_done_complete c d t id ev h
  obtain ⟨e, he, hslots, hidx, hexit⟩ := readEventHeader_done_slots c d t id ev0 idx0 hh
  have hfl := (readEventHeader_done c d t id ev0 idx0 hh).2.2.2.2
  have hid : ev.event_identifier = ev0.event_identifier := by rw [hev]
  have hx : ev.exit_code = ev0.exit_code := by rw [hev]
  rw [hfl] at hr
  refine ⟨e, params, idx, by rw [hid]; exact he, by rw [hid]; exact hp, ?_, ?_⟩
  · intro het
    subst het
    simp only [if_true] at hidx hexit
    rw [slotIndex_succ_eq] at hidx
    rw [hx, hexit, ← hidx]
    exact ⟨rfl, hr⟩
  · intro hef
    subst hef
    simp only [Bool.false_eq_true, if_false] at hidx hexit hslots
    have h5 := hslots 5 (by decide)
    rw [slotIndex_succ_eq] at hidx hexit h5
    rw [hx, hexit, ← hidx]
    exact ⟨h5, ⟨_, rfl, rfl, (cast_int_range _).1, (cast_int_range _).2, cast_int_emod _⟩, hr⟩

/-- C13 at a concrete input: the exit event of `tableExitEvent` has the exit
code -2, the low 32 bits `0xFFFFFFFE` of the word in slot 5. -/
theorem processPerfEvent_exit_code_witness :
    ∃ ev, processPerfEvent exampleDefs exampleReaderExit tableExitEvent 0 = .done ev ∧
      ev.exit_code = some (-2) := by
  have hdone : processPerfEvent exampleDefs exampleReaderExit tableExitEvent 0 =
      .done
        { event_identifier := 0, syscall_number := 42, timestamp := 42, pid := 5, tgid := 7,
          uid := 1000, gid := 3, exit_code := some (-2), field_list := [("fd", .signed 42)] } := by
    decide
  obtain ⟨e, _, _, he, _, _, hf⟩ :=
    processPerfEvent_exit_code exampleDefs exampleReaderExit tableExitEvent 0 _ hdone
  have hfalse : e = false := by
    cases e
    · rfl
    · revert he; decide
  obtain ⟨_, ⟨x, hx, hval, _⟩, _⟩ := hf hfalse
  refine ⟨_, hdone, ?_⟩
  rw [hx, hval]
  decide

/-! ## C20: only the identifier's own column is read -/

section SameColumn

variable (c : Defs) (d : PrivateData) (t1 t2 : BPFPercpuArrayTable) (cpu : Nat)
  (hsame : ∀ i, (t1 i).code = (t2 i).code ∧ (t1 i).data.length = (t2 i).data.length ∧
    (t1 i).data.getD cpu 0 = (t2 i).data.getD cpu 0)

include hsame

theorem readEventData_congr {α : Type} [Zero α] (cast : Nat → α) (i : Nat) :
    readEventData cast c t1 i cpu = readEventData cast c t2 i cpu := by
  obtain ⟨hc, hl, hw⟩ := hsame i
  have hok : (readEventSlot c t1 i cpu).ok = (readEventSlot c t2 i cpu).ok := by
    cases h2 : (readEventSlot c t2 i cpu).ok with
    | true =>
      rw [readEventSlot_ok_iff] at h2 ⊢
      rw [hc, hl]
      exact h2
    | false =>
      cases h1 : (readEventSlot c t1 i cpu).ok with
      | false => rfl
      | true =>
        rw [readEventSlot_ok_iff, hc, hl, ← readEventSlot_ok_iff c t2 i cpu, h2] at h1
        cases h1
  cases h2 : (readEventSlot c t2 i cpu).ok with
  | true =>
    rw [readEventData_of_ok cast c t1 i cpu (hok.trans h2), readEventData_of_ok cast c t2 i cpu h2]
    simp only [slotWord, hw]
  | false =>
    rw [readEventData_of_fail cast c t1 i cpu (hok.trans h2),
      readEventData_of_fail cast c t2 i cpu h2]

theorem readEventBufferLoop_congr (s : Bool) (n : Nat) :
    ∀ (idx : Nat) (acc : List Nat),
      readEventBufferLoop s c t1 cpu n idx acc = readEventBufferLoop s c t2 cpu n idx acc := by
  induction n with
  | zero => intro idx acc; rfl
  | succ n ih =>
    intro idx acc
    simp only [readEventBufferLoop, readEventData_congr c t1 t2 cpu hsame, ih]

theorem readEventBuffer_congr (s : Bool) (idx len : Nat) :
    readEventBuffer s c t1 idx cpu len = readEventBuffer s c t2 idx cpu len := by
  simp only [readEventBuffer, readEventBufferLoop_congr c t1 t2 cpu hsame]

theorem readEventStringListLoop_congr (len n : Nat) :
    ∀ (idx : Nat) (value : StringList),
      readEventStringListLoop c t1 cpu len n idx value =
        readEventStringListLoop c t2 cpu len n idx value := by
  induction n with
  | zero => intro idx value; rfl
  | succ n ih =>
    intro idx value
    simp only [readEventStringListLoop, readEventData_congr c t1 t2 cpu hsame, readEventString,
      readEventBuffer_congr c t1 t2 cpu hsame, ih]

theorem readParameter_congr (p : ProbeParameter) (idx : Nat) :
    readParameter c d t1 cpu p idx = readParameter c d t2 cpu p idx := by
  simp only [readParameter, readEventData_congr c t1 t2 cpu hsame, readEventString,
    readEventByteArray, readEventBuffer_congr c t1 t2 cpu hsame, readEventStringList,
    readEventStringListLoop_congr c t1 t2 cpu hsame]

theorem readParameterList_congr (params : List ProbeParameter) :
    ∀ (idx : Nat) (fl : List (String × FieldValue)),
      readParameterList c d t1 cpu params idx fl = readParameterList c d t2 cpu params idx fl := by
  induction params with
  | nil => intro idx fl; rfl
  | cons p rest ih =>
    intro idx fl
    simp only [readParameterList, readParameter_congr c d t1 t2 cpu hsame, ih]

end SameColumn

/-- C20: two ring tables whose rows have, at every ring position, the same
status, the same number of columns and the same word in the column of the
identifier, give the same result for the identifier: the same event or the same
discard. The words of the other columns play no part. -/
theorem processPerfEvent_same_column (c : Defs) (d : PrivateData)
    (t1 t2 : BPFPercpuArrayTable) (id : Nat)
    (hsame : ∀ i, (t1 i).code = (t2 i).code ∧ (t1 i).data.length = (t2 i).data.length ∧
      (t1 i).data.getD (eventCpu id) 0 = (t2 i).data.getD (eventCpu id) 0) :
    readEventHeader c d t1 id = readEventHeader c d t2 id ∧
    processPerfEvent c d t1 id = processPerfEvent c d t2 id ∧
    emittedEvent c d t1 id = emittedEvent c d t2 id ∧
    processPerfEvents c d t1 [id] = processPerfEvents c d t2 [id] := by
  have hh : readEventHeader c d t1 id = readEventHeader c d t2 id := by
    simp only [readEventHeader, readEventData_congr c t1 t2 (eventCpu id) hsame]
  have hp : processPerfEvent c d t1 id = processPerfEvent c d t2 id := by
    simp only [processPerfEvent, hh, readParameterList_congr c d t1 t2 (eventCpu id) hsame]
  have he : emittedEvent c d t1 id = emittedEvent c d t2 id := by
    simp only [emittedEvent, hp]
  refine ⟨hh, hp, he, ?_⟩
  simp only [processPerfEvents_eq, List.filterMap_cons, List.filterMap_nil, he]

/-- C20 at a concrete input: the second column holds 1 in one table and 2 in
the other, and the identifier of column 0 decodes to the same event. -/
theorem processPerfEvent_same_column_witness :
    processPerfEvent exampleDefs exampleReader (tableSecondColumn 1) 0 =
      processPerfEvent exampleDefs exampleReader (tableSecondColumn 2) 0 :=
  (processPerfEvent_same_column exampleDefs exampleReader (tableSecondColumn 1)
    (tableSecondColumn 2) 0 (fun i => by
      unfold tableSecondColumn tableScalarEvent
      split_ifs <;> exact ⟨rfl, rfl, rfl⟩)).2.1

/-! ## C17: a string list that reaches its maximum count -/

/-- The loop of `readEventStringList` on `n` strings, none of which starts with
a sentinel: the result and the positions read. -/
theorem readEventStringListLoop_full (c : Defs) (t : BPFPercpuArrayTable)
    (cpu len n : Nat) :
    ∀ (idx : Nat) (value : StringList),
      (∀ i, i < n →
        (readEventSlot c t (stringIndex c idx (len / 8) i) cpu).ok = true ∧
        cast_uint64 (slotWord t (stringIndex c idx (len / 8) i) cpu) ≠ c.VARARGS_TRUNCATION ∧
        cast_uint64 (slotWord t (stringIndex c idx (len / 8) i) cpu) ≠ c.VARARGS_TERMINATOR ∧
        (readEventString c t (stringIndex c idx (len / 8) i) cpu len).ok = true) →
      readEventStringListLoop c t cpu len n idx value =
        { ok := true
          value :=
            { truncated := value.truncated
              data := value.data ++ (List.range n).map fun i =>
                (readEventString c t (stringIndex c idx (len / 8) i) cpu len).value }
          index := stringIndex c idx (len / 8) n } ∧
      readEventStringListLoopReads c t cpu len n idx =
        ((List.range n).map fun i =>
          stringIndex c idx (len / 8) i ::
            readEventBufferReads true c t (stringIndex c idx (len / 8) i) cpu len).flatten := by
  induction n with
  | zero =>
    intro idx value _
    exact ⟨by simp [readEventStringListLoop, stringIndex], rfl⟩
  | succ n ih =>
    intro idx value hstr
    obtain ⟨h0ok, h0a, h0b, h0s⟩ := hstr 0 (Nat.succ_pos n)
    have h0ok' : (readEventSlot c t idx cpu).ok = true := h0ok
    have h0a' : cast_uint64 (slotWord t idx cpu) ≠ c.VARARGS_TRUNCATION := h0a
    have h0b' : cast_uint64 (slotWord t idx cpu) ≠ c.VARARGS_TERMINATOR := h0b
    have h0s' : (readEventString c t idx cpu len).ok = true := h0s
    have hidx : (readEventString c t idx cpu len).index =
        INCREMENT_EVENT_DATA_INDEX_BY c idx (len / 8) := readEventBuffer_index true c t idx cpu len
    have hstr' : ∀ i, i < n →
        (readEventSlot c t
          (stringIndex c (INCREMENT_EVENT_DATA_INDEX_BY c idx (len / 8)) (len / 8) i) cpu).ok = true ∧
        cast_uint64 (slotWord t
          (stringIndex c (INCREMENT_EVENT_DATA_INDEX_BY c idx (len / 8)) (len / 8) i) cpu) ≠
            c.VARARGS_TRUNCATION ∧
        cast_uint64 (slotWord t
          (stringIndex c (INCREMENT_EVENT_DATA_INDEX_BY c idx (len / 8)) (len / 8) i) cpu) ≠
            c.VARARGS_TERMINATOR ∧
        (readEventString c t
          (stringIndex c (INCREMENT_EVENT_DATA_INDEX_BY c idx (len / 8)) (len / 8) i) cpu len).ok =
            true := by
      intro i hi
      rw [stringIndex_succ_left]
      exact hstr (i + 1) (Nat.succ_lt_succ hi)
    have ih' := ih (INCREMENT_EVENT_DATA_INDEX_BY c idx (len / 8))
      { value with data := value.data ++ [(readEventString c t idx cpu len).value] } hstr'
    simp only [stringIndex_succ_left] at ih'
    constructor
    · simp only [readEventStringListLoop, readEventData_of_ok cast_uint64 c t idx cpu h0ok',
        h0a', h0b', h0s', hidx, if_false, Bool.true_eq_false]
      rw [ih'.1]
      have hrange : (List.range (n + 1)).map (fun i =>
            (readEventString c t (stringIndex c idx (len / 8) i) cpu len).value) =
          (readEventString c t idx cpu len).value ::
            (List.range n).map (fun i =>
              (readEventString c t (stringIndex c idx (len / 8) (i + 1)) cpu len).value) := by
        rw [List.range_succ_eq_map, List.map_cons, List.map_map]
        rfl
      rw [hrange]
      simp
    · simp only [readEventStringListLoopReads, readEventData_of_ok cast_uint64 c t idx cpu h0ok',
        h0a', h0b', h0s', hidx, if_false, Bool.true_eq_false]
      rw [ih'.2]
      have hrange : (List.range (n + 1)).map (fun i =>
            stringIndex c idx (len / 8) i ::
              readEventBufferReads true c t (stringIndex c idx (len / 8) i) cpu len) =
          (idx :: readEventBufferReads true c t idx cpu len) ::
            (List.range n).map (fun i =>
              stringIndex c idx (len / 8) (i + 1) ::
                readEventBufferReads true c t (stringIndex c idx (len / 8) (i + 1)) cpu len) := by
        rw [List.range_succ_eq_map, List.map_cons, List.map_map]
        rfl
      rw [hrange]
      simp

/-- C17: when `max_count` strings, none of which starts with a sentinel word,
are read successfully, `readEventStringList` returns exactly `max_count`
strings with `truncated = false` and leaves the cursor `max_count * (max_len / 8)`
slots on, with wraparound: the only positions read are, for each string, the
start of the string (the look-ahead) and the slots of the string, so the slot
after the last string is not looked at, whatever it holds, and the next field
starts there. -/
theorem readEventStringList_full (c : Defs) (t : BPFPercpuArrayTable)
    (start cpu max_len max_count : Nat)
    (hstr : ∀ i, i < max_count →
      (readEventSlot c t (stringIndex c start (max_len / 8) i) cpu).ok = true ∧
      cast_uint64 (slotWord t (stringIndex c start (max_len / 8) i) cpu) ≠ c.VARARGS_TRUNCATION ∧
      cast_uint64 (slotWord t (stringIndex c start (max_len / 8) i) cpu) ≠ c.VARARGS_TERMINATOR ∧
      (readEventString c t (stringIndex c start (max_len / 8) i) cpu max_len).ok = true) :
    (readEventStringList c t start cpu max_len max_count).ok = true ∧
    (readEventStringList c t start cpu max_len max_count).value.data.length = max_count ∧
    (readEventStringList c t start cpu max_len max_count).value.data =
      (List.range max_count).map (fun i =>
        (readEventString c t (stringIndex c start (max_len / 8) i) cpu max_len).value) ∧
    (readEventStringList c t start cpu max_len max_count).value.truncated = false ∧
    (readEventStringList c t start cpu max_len max_count).index =
      stringIndex c start (max_len / 8) max_count ∧
    (0 < max_count → (readEventStringList c t start cpu max_len max_count).index =
      (start + max_count * (max_len / 8)) % c.EVENT_MAP_SIZE) ∧
    readEventStringListReads c t start cpu max_len max_count =
      ((List.range max_count).map fun i =>
        stringIndex c start (max_len / 8) i ::
          readEventBufferReads true c t (stringIndex c start (max_len / 8) i) cpu
            max_len).flatten := by
  have h := readEventStringListLoop_full c t cpu max_len max_count start
    { truncated := false, data := [] } hstr
  unfold readEventStringList readEventStringListReads
  rw [h.1]
  refine ⟨rfl, by simp, by simp, rfl, rfl, ?_, h.2⟩
  intro hpos
  obtain ⟨k, rfl⟩ : ∃ k, max_count = k + 1 := ⟨max_count - 1, by omega⟩
  show INCREMENT_EVENT_DATA_INDEX_BY c (stringIndex c start (max_len / 8) k) (max_len / 8) = _
  unfold INCREMENT_EVENT_DATA_INDEX_BY
  rw [stringIndex_add_mod, Nat.succ_mul, Nat.add_assoc]

/-- C17 at a concrete input: with `max_count = 2` the strings `ab` and `c` are
returned, the flag stays false, and the truncation sentinel in slot 2 is neither
read nor consumed. -/
theorem readEventStringList_full_witness :
    (readEventStringList exampleDefs tableFullStringList 0 0 8 2).value.truncated = false ∧
    (readEventStringList exampleDefs tableFullStringList 0 0 8 2).index = 2 ∧
    readEventStringListReads exampleDefs tableFullStringList 0 0 8 2 = [0, 0, 1, 1] := by
  have h := readEventStringList_full exampleDefs tableFullStringList 0 0 8 2 (by decide)
  refine ⟨h.2.2.2.1, ?_, ?_⟩
  · rw [h.2.2.2.2.1]; decide
  · rw [h.2.2.2.2.2.2]; decide

/-! ## C19: kernel-probe readers have empty buffers -/

theorem readEventBuffer_zero (s : Bool) (c : Defs) (t : BPFPercpuArrayTable) (idx cpu : Nat) :
    readEventBuffer s c t idx cpu 0 =
      { ok := true, value := [], index := idx % c.EVENT_MAP_SIZE, raised := false } ∧
    readEventBufferReads s c t idx cpu 0 = [] := by
  constructor
  · simp [readEventBuffer, readEventBufferLoop, INCREMENT_EVENT_DATA_INDEX_BY, reserveThrows]
  · simp [readEventBufferReads, readEventBufferLoopReads]

/-- C19: a reader built from a `KprobeProbe` has both sizes at zero. With a
cursor inside the ring, each of its String and ByteArray parameters decodes to
the empty value and each StringList parameter to the empty list with
`truncated = false`; none of them reads a slot, fails or moves the cursor, so the
parameter declared next is decoded from the same position. During the decode of
an event the cursor is always inside the ring. -/
theorem kprobe_reader_empty_values (desc : KprobeProbe) (c : Defs) (t : BPFPercpuArrayTable) :
    (ProbeReaderService.ofKprobeProbe desc).string_buffer_size = 0 ∧
    (ProbeReaderService.ofKprobeProbe desc).string_list_size = 0 ∧
    (ProbeReaderService.ofKprobeProbe desc).tracepoint = false ∧
    (∀ (cpu idx : Nat) (p : ProbeParameter), idx % c.EVENT_MAP_SIZE = idx →
      (p.type = .String ∨ p.type = .ByteArray ∨ p.type = .StringList) →
      readParameter c (ProbeReaderService.ofKprobeProbe desc) t cpu p idx =
        some (emptyFieldValue p.type, idx) ∧
      readParameterReads c (ProbeReaderService.ofKprobeProbe desc) t cpu p idx = [] ∧
      ∀ (rest : List ProbeParameter) (fl : List (String × FieldValue)),
        readParameterList c (ProbeReaderService.ofKprobeProbe desc) t cpu (p :: rest) idx fl =
          readParameterList c (ProbeReaderService.ofKprobeProbe desc) t cpu rest idx
            (insertField fl p.name (emptyFieldValue p.type))) ∧
    (∀ (id : Nat) (ev : ProbeEvent) (idx : Nat),
      readEventHeader c (ProbeReaderService.ofKprobeProbe desc) t id = .done (ev, idx) →
      idx % c.EVENT_MAP_SIZE = idx) ∧
    (∀ (cpu idx : Nat) (p : ProbeParameter) (v : FieldValue) (idx2 : Nat),
      idx % c.EVENT_MAP_SIZE = idx →
      readParameter c (ProbeReaderService.ofKprobeProbe desc) t cpu p idx = some (v, idx2) →
      idx2 % c.EVENT_MAP_SIZE = idx2) := by
  have hread : ∀ (cpu idx : Nat) (p : ProbeParameter), idx % c.EVENT_MAP_SIZE = idx →
      (p.type = .String ∨ p.type = .ByteArray ∨ p.type = .StringList) →
      readParameter c (ProbeReaderService.ofKprobeProbe desc) t cpu p idx =
        some (emptyFieldValue p.type, idx) := by
    intro cpu idx p hidx hty
    have hb : (ProbeReaderService.ofKprobeProbe desc).string_buffer_size = 0 := rfl
    have hl : (ProbeReaderService.ofKprobeProbe desc).string_list_size = 0 := rfl
    rcases hty with h | h | h
    · simp [readParameter, h, hb, readEventString, (readEventBuffer_zero true c t idx cpu).1,
        hidx, emptyFieldValue]
    · simp [readParameter, h, hb, readEventByteArray, (readEventBuffer_zero false c t idx cpu).1,
        hidx, emptyFieldValue]
    · simp [readParameter, h, hb, hl, readEventStringList, readEventStringListLoop,
        emptyFieldValue]
  refine ⟨rfl, rfl, rfl, ?_, ?_, ?_⟩
  · intro cpu idx p hidx hty
    refine ⟨hread cpu idx p hidx hty, ?_, ?_⟩
    · have hb : (ProbeReaderService.ofKprobeProbe desc).string_buffer_size = 0 := rfl
      have hl : (ProbeReaderService.ofKprobeProbe desc).string_list_size = 0 := rfl
      rcases hty with h | h | h
      · simp [readParameterReads, h, hb, (readEventBuffer_zero true c t idx cpu).2]
      · simp [readParameterReads, h, hb, (readEventBuffer_zero false c t idx cpu).2]
      · simp [readParameterReads, h, hl, readEventStringListReads, readEventStringListLoopReads]
    · intro rest fl
      simp only [readParameterList, hread cpu idx p hidx hty]
  · intro id ev idx h
    obtain ⟨e, _, _, hidx, _⟩ := readEventHeader_done_slots c _ t id ev idx h
    rw [hidx]
    cases e
    · simp only [Bool.false_eq_true, if_false]
      rw [slotIndex_succ_eq, Nat.mod_mod]
    · simp only [if_true]
      rw [slotIndex_succ_eq, Nat.mod_mod]
  · intro cpu idx p v idx2 hidx h
    cases hty : p.type
    · rw [hread cpu idx p hidx (Or.inl hty)] at h
      cases h
      exact hidx
    · rcases readEventData_step cast_int64 c t idx cpu with h1 | ⟨_, h1⟩
      · simp [readParameter, hty, h1] at h
      · simp only [readParameter, hty, h1, Bool.true_eq_false, if_false, Option.some.injEq,
          Prod.mk.injEq] at h
        rw [← h.2]
        exact Nat.mod_mod _ _
    · rcases readEventData_step cast_uint64 c t idx cpu with h1 | ⟨_, h1⟩
      · simp [readParameter, hty, h1] at h
      · simp only [readParameter, hty, h1, Bool.true_eq_false, if_false, Option.some.injEq,
          Prod.mk.injEq] at h
        rw [← h.2]
        exact Nat.mod_mod _ _
    · rw [hread cpu idx p hidx (Or.inr (Or.inr hty))] at h
      cases h
      exact hidx
    · rw [hread cpu idx p hidx (Or.inr (Or.inl hty))] at h
      cases h
      exact hidx
    · simp [readParameter, hty] at h

/-- C19 at a concrete input: the string parameter of a kernel-probe event is
empty, reads nothing, and the integer declared after it is read from the same
slot 5. -/
theorem kprobe_reader_empty_values_witness :
    readParameter exampleDefs (ProbeReaderService.ofKprobeProbe exampleKprobeProbe)
      tableScalarEvent 0 { name := "path", type := .String } 5 = some (.string [], 5) ∧
    processPerfEventReads exampleDefs (ProbeReaderService.ofKprobeProbe exampleKprobeProbe)
      tableScalarEvent 0 = [[0], [1], [2], [3], [4], [], [5]] :=
  ⟨((kprobe_reader_empty_values exampleKprobeProbe exampleDefs tableScalarEvent).2.2.2.1 0 5
    { name := "path", type := .String } (by decide) (Or.inl rfl)).1, by decide⟩

/-! ## C16: every ring index stays below the capacity -/

section IndexBound

variable (c : Defs) (t : BPFPercpuArrayTable) (cpu : Nat) (hcap : 0 < c.EVENT_MAP_SIZE)

include hcap

theorem INCREMENT_EVENT_DATA_INDEX_BY_lt (i n : Nat) :
    INCREMENT_EVENT_DATA_INDEX_BY c i n < c.EVENT_MAP_SIZE :=
  Nat.mod_lt _ hcap

theorem readEventData_index_lt {α : Type} [Zero α] (cast : Nat → α) (idx : Nat)
    (h : idx < c.EVENT_MAP_SIZE) : (readEventData cast c t idx cpu).index < c.EVENT_MAP_SIZE := by
  rcases readEventData_step cast c t idx cpu with h1 | ⟨_, h1⟩
  · rw [h1]; exact h
  · rw [h1]; exact Nat.mod_lt _ hcap

theorem readEventBufferLoopReads_lt (s : Bool) (n : Nat) :
    ∀ (idx : Nat) (acc : List Nat), idx < c.EVENT_MAP_SIZE →
      ∀ x ∈ readEventBufferLoopReads s c t cpu n idx acc, x < c.EVENT_MAP_SIZE := by
  induction n with
  | zero => intro idx acc _ x hx; simp [readEventBufferLoopReads] at hx
  | succ n ih =>
    intro idx acc hidx x hx
    have hnext := readEventData_index_lt c t cpu hcap cast_uint64 idx hidx
    simp only [readEventBufferLoopReads] at hx
    split_ifs at hx with h1
    · simp only [List.mem_singleton] at hx
      rw [hx]; exact hidx
    · split at hx
      · simp only [List.mem_singleton] at hx
        rw [hx]; exact hidx
      · rcases List.mem_cons.1 hx with rfl | hx
        · exact hidx
        · exact ih _ _ hnext x hx

theorem readEventStringListLoop_index_lt (len n : Nat) :
    ∀ (idx : Nat) (value : StringList), idx < c.EVENT_MAP_SIZE →
      (readEventStringListLoop c t cpu len n idx value).index < c.EVENT_MAP_SIZE := by
  induction n with
  | zero => intro idx value h; exact h
  | succ n ih =>
    intro idx value hidx
    have hq := readEventData_index_lt c t cpu hcap cast_uint64 idx hidx
    have hs : (readEventString c t idx cpu len).index < c.EVENT_MAP_SIZE := by
      rw [readEventString, readEventBuffer_index]
      exact Nat.mod_lt _ hcap
    simp only [readEventStringListLoop]
    split_ifs
    · exact hidx
    · exact hq
    · exact hq
    · exact hs
    · exact ih _ _ hs

theorem readEventStringListLoopReads_lt (len n : Nat) :
    ∀ (idx : Nat), idx < c.EVENT_MAP_SIZE →
      ∀ x ∈ readEventStringListLoopReads c t cpu len n idx, x < c.EVENT_MAP_SIZE := by
  induction n with
  | zero => intro idx _ x hx; simp [readEventStringListLoopReads] at hx
  | succ n ih =>
    intro idx hidx x hx
    have hs : (readEventString c t idx cpu len).index < c.EVENT_MAP_SIZE := by
      rw [readEventString, readEventBuffer_index]
      exact Nat.mod_lt _ hcap
    have hbuf := readEventBufferLoopReads_lt c t cpu hcap true (len / 8) idx [] hidx
    simp only [readEventStringListLoopReads] at hx
    split_ifs at hx
    · simp only [List.mem_singleton] at hx
      rw [hx]; exact hidx
    · simp only [List.mem_singleton] at hx
      rw [hx]; exact hidx
    · simp only [List.mem_singleton] at hx
      rw [hx]; exact hidx
    · rcases List.mem_cons.1 hx with rfl | hx
      · exact hidx
      · exact hbuf x hx
    · rcases List.mem_cons.1 hx with rfl | hx
      · exact hidx
      · rcases List.mem_append.1 hx with hx | hx
        · exact hbuf x hx
        · exact ih _ hs x hx

theorem readParameter_index_lt (d : PrivateData) (p : ProbeParameter) (idx : Nat)
    (v : FieldValue) (idx2 : Nat) (hidx : idx < c.EVENT_MAP_SIZE)
    (h : readParameter c d t cpu p idx = some (v, idx2)) : idx2 < c.EVENT_MAP_SIZE := by
  unfold readParameter at h
  cases hty : p.type <;> simp only [hty] at h
  · split_ifs at h
    simp only [Option.some.injEq, Prod.mk.injEq] at h
    rw [← h.2, readEventString, readEventBuffer_index]
    exact Nat.mod_lt _ hcap
  · split_ifs at h
    simp only [Option.some.injEq, Prod.mk.injEq] at h
    rw [← h.2]
    exact readEventData_index_lt c t cpu hcap cast_int64 idx hidx
  · split_ifs at h
    simp only [Option.some.injEq, Prod.mk.injEq] at h
    rw [← h.2]
    exact readEventData_index_lt c t cpu hcap cast_uint64 idx hidx
  · split_ifs at h
    simp only [Option.some.injEq, Prod.mk.injEq] at h
    rw [← h.2]
    exact readEventStringListLoop_index_lt c t cpu hcap _ _ idx _ hidx
  · split_ifs at h
    simp only [Option.some.injEq, Prod.mk.injEq] at h
    rw [← h.2, readEventByteArray, readEventBuffer_index]
    exact Nat.mod_lt _ hcap
  · cases h

theorem readParameterReads_lt (d : PrivateData) (p : ProbeParameter) (idx : Nat)
    (hidx : idx < c.EVENT_MAP_SIZE) :
    ∀ x ∈ readParameterReads c d t cpu p idx, x < c.EVENT_MAP_SIZE := by
  intro x hx
  unfold readParameterReads at hx
  split at hx
  · exact readEventBufferLoopReads_lt c t cpu hcap true _ idx [] hidx x hx
  · simp only [List.mem_singleton] at hx; rw [hx]; exact hidx
  · simp only [List.mem_singleton] at hx; rw [hx]; exact hidx
  · exact readEventStringListLoopReads_lt c t cpu hcap _ _ idx hidx x hx
  · exact readEventBufferLoopReads_lt c t cpu hcap false _ idx [] hidx x hx
  · simp at hx

theorem readParameterListReads_lt (d : PrivateData) (params : List ProbeParameter) :
    ∀ idx, idx < c.EVENT_MAP_SIZE →
      ∀ l ∈ readParameterListReads c d t cpu params idx, ∀ x ∈ l, x < c.EVENT_MAP_SIZE := by
  induction params with
  | nil => intro idx _ l hl; simp [readParameterListReads] at hl
  | cons p rest ih =>
    intro idx hidx l hl x hx
    simp only [readParameterListReads] at hl
    rcases List.mem_cons.1 hl with rfl | hl
    · exact readParameterReads_lt c t cpu hcap d p idx hidx x hx
    · cases hr : readParameter c d t cpu p idx with
      | none => simp [hr] at hl
      | some r =>
        obtain ⟨v, idx2⟩ := r
        simp only [hr] at hl
        exact ih idx2 (readParameter_index_lt c t cpu hcap d p idx v idx2 hidx hr) l hl x hx

end IndexBound

/-- The header words are read from consecutive ring positions, and a decoded
header leaves the cursor right after the last of them. -/
theorem readEventHeaderReads_eq (c : Defs) (d : PrivateData) (t : BPFPercpuArrayTable)
    (id : Nat) :
    ∃ k, 1 ≤ k ∧ k ≤ 6 ∧
      readEventHeaderReads c d t id =
        (List.range k).map (fun j => [slotIndex c (eventIndex c id) j]) ∧
      ∀ ev idx, readEventHeader c d t id = .done (ev, idx) →
        idx = slotIndex c (eventIndex c id) k := by
  unfold readEventHeaderReads readEventHeader
  rcases readEventData_step cast_uint64 c t (eventIndex c id) (eventCpu id) with h0 | ⟨_, h0⟩
  · refine ⟨1, by decide, by decide, ?_, ?_⟩
    · simp only [h0, if_true]; rfl
    · intro ev idx h; simp [h0] at h
  by_cases hm : cast_uint64 (slotWord t (eventIndex c id) (eventCpu id)) &&&
      0xFFFFFFFFFFFF0000 = c.BASE_EVENT_TYPE
  swap
  · refine ⟨1, by decide, by decide, ?_, ?_⟩
    · simp only [h0, hm, ne_eq, not_false_eq_true, if_true, if_false, Bool.true_eq_false]; rfl
    · intro ev idx h; simp [h0, hm] at h
  by_cases hr : cast_uint64 (slotWord t (eventIndex c id) (eventCpu id)) &&& 0xFFFF ≥
      probeListSize d
  · refine ⟨1, by decide, by decide, ?_, ?_⟩
    · simp only [h0, hm, hr, ne_eq, not_true_eq_false, if_true, if_false, Bool.true_eq_false]
      rfl
    · intro ev idx h; simp [h0, hm, hr] at h
  obtain ⟨e, he⟩ := entryAt_of_lt d _ (Nat.lt_of_not_le hr)
  simp only [h0, hm, hr, he, ne_eq, not_true_eq_false, if_false, Bool.true_eq_false]
  rcases readEventData_step cast_int64 c t (INCREMENT_EVENT_DATA_INDEX c (eventIndex c id))
    (eventCpu id) with h1 | ⟨_, h1⟩
  · refine ⟨2, by decide, by decide, ?_, ?_⟩
    · simp only [h1, if_true]; rfl
    · intro ev idx h; simp [h1] at h
  simp only [h1, if_false, Bool.true_eq_false]
  rcases readEventData_step cast_uint64 c t
    (INCREMENT_EVENT_DATA_INDEX c (INCREMENT_EVENT_DATA_INDEX c (eventIndex c id)))
    (eventCpu id) with h2 | ⟨_, h2⟩
  · refine ⟨3, by decide, by decide, ?_, ?_⟩
    · simp only [h2, if_true]; rfl
    · intro ev idx h; simp [h2] at h
  simp only [h2, if_false, Bool.true_eq_false]
  rcases readEventData_step cast_uint64 c t
    (INCREMENT_EVENT_DATA_INDEX c
      (INCREMENT_EVENT_DATA_INDEX c (INCREMENT_EVENT_DATA_INDEX c (eventIndex c id))))
    (eventCpu id) with h3 | ⟨_, h3⟩
  · refine ⟨4, by decide, by decide, ?_, ?_⟩
    · simp only [h3, if_true]; rfl
    · intro ev idx h; simp [h3] at h
  simp only [h3, if_false, Bool.true_eq_false]
  rcases readEventData_step cast_uint64 c t
    (INCREMENT_EVENT_DATA_INDEX c (INCREMENT_EVENT_DATA_INDEX c
      (INCREMENT_EVENT_DATA_INDEX c (INCREMENT_EVENT_DATA_INDEX c (eventIndex c id)))))
    (eventCpu id) with h4 | ⟨_, h4⟩
  · refine ⟨5, by decide, by decide, ?_, ?_⟩
    · simp only [h4, if_true]; rfl
    · intro ev idx h; simp [h4] at h
  simp only [h4, if_false, Bool.true_eq_false]
  cases e with
  | true =>
    refine ⟨5, by decide, by decide, ?_, ?_⟩
    · simp only [if_false, Bool.true_eq_false]; rfl
    · intro ev idx h
      simp only [if_false, Bool.true_eq_false, EventOutcome.done.injEq, Prod.mk.injEq] at h
      rw [← h.2]; rfl
  | false =>
    refine ⟨6, by decide, by decide, ?_, ?_⟩
    · simp only [if_true]; rfl
    · intro ev idx h
      simp only [if_true] at h
      rcases readEventData_step cast_int c t
        (INCREMENT_EVENT_DATA_INDEX c (INCREMENT_EVENT_DATA_INDEX c (INCREMENT_EVENT_DATA_INDEX c
          (INCREMENT_EVENT_DATA_INDEX c (INCREMENT_EVENT_DATA_INDEX c (eventIndex c id))))))
        (eventCpu id) with h5 | ⟨_, h5⟩
      · simp [h5] at h
      · simp only [h5, if_false, Bool.true_eq_false, EventOutcome.done.injEq,
          Prod.mk.injEq] at h
        rw [← h.2]; rfl

theorem eventIndex_lt (c : Defs) (hcap : 0 < c.EVENT_MAP_SIZE) (id : Nat) :
    eventIndex c id < c.EVENT_MAP_SIZE :=
  Nat.mod_lt _ hcap

theorem slotIndex_lt (c : Defs) (hcap : 0 < c.EVENT_MAP_SIZE) (idx j : Nat)
    (h : idx < c.EVENT_MAP_SIZE) : slotIndex c idx j < c.EVENT_MAP_SIZE := by
  cases j with
  | zero => exact h
  | succ j => exact Nat.mod_lt _ hcap

theorem processPerfEventReads_lt (c : Defs) (d : PrivateData) (t : BPFPercpuArrayTable)
    (hcap : 0 < c.EVENT_MAP_SIZE) (id : Nat) :
    ∀ l ∈ processPerfEventReads c d t id, ∀ x ∈ l, x < c.EVENT_MAP_SIZE := by
  intro l hl x hx
  obtain ⟨k, _, _, hreads, hdone⟩ := readEventHeaderReads_eq c d t id
  unfold processPerfEventReads at hl
  rcases List.mem_append.1 hl with hl | hl
  · rw [hreads] at hl
    obtain ⟨j, _, rfl⟩ := List.mem_map.1 hl
    simp only [List.mem_singleton] at hx
    rw [hx]
    exact slotIndex_lt c hcap _ j (eventIndex_lt c hcap id)
  · cases hh : readEventHeader c d t id with
    | raised => simp [hh] at hl
    | discarded => simp [hh] at hl
    | done r =>
      obtain ⟨ev, idx⟩ := r
      simp only [hh] at hl
      cases hp : parameterListAt d ev.event_identifier with
      | none => simp [hp] at hl
      | some params =>
        simp only [hp] at hl
        have hidx : idx < c.EVENT_MAP_SIZE := by
          rw [hdone ev idx hh]
          exact slotIndex_lt c hcap _ k (eventIndex_lt c hcap id)
        exact readParameterListReads_lt c t (eventCpu id) hcap d params idx hidx l hl x hx

/-! ## C16: the ring-index invariant -/

/-- C16: with a positive ring capacity, advancing a cursor by `n` slots yields
`(cursor + n) mod EVENT_MAP_SIZE`, which is below the capacity; the starting
index of an identifier is below the capacity; a cursor below the capacity is
still below it after `readEventSlot`, `readEventData`, `readEventBuffer` and
`readEventStringList`, whether they succeed or fail; and every ring position
read during the decode of an identifier is below the capacity. -/
theorem ring_index_invariant (c : Defs) (t : BPFPercpuArrayTable)
    (hcap : 0 < c.EVENT_MAP_SIZE) :
    (∀ cursor n, INCREMENT_EVENT_DATA_INDEX_BY c cursor n = (cursor + n) % c.EVENT_MAP_SIZE ∧
      INCREMENT_EVENT_DATA_INDEX_BY c cursor n < c.EVENT_MAP_SIZE ∧
      INCREMENT_EVENT_DATA_INDEX c cursor = (cursor + 1) % c.EVENT_MAP_SIZE) ∧
    (∀ id, eventIndex c id < c.EVENT_MAP_SIZE) ∧
    (∀ index cpu_id, index < c.EVENT_MAP_SIZE →
      (readEventSlot c t index cpu_id).index < c.EVENT_MAP_SIZE ∧
      (readEventData cast_uint64 c t index cpu_id).index < c.EVENT_MAP_SIZE ∧
      (readEventData cast_int64 c t index cpu_id).index < c.EVENT_MAP_SIZE ∧
      (readEventData cast_int c t index cpu_id).index < c.EVENT_MAP_SIZE ∧
      (∀ len, (readEventString c t index cpu_id len).index < c.EVENT_MAP_SIZE ∧
        (readEventByteArray c t index cpu_id len).index < c.EVENT_MAP_SIZE ∧
        ∀ max_count,
          (readEventStringList c t index cpu_id len max_count).index < c.EVENT_MAP_SIZE)) ∧
    (∀ (d : PrivateData) (cpu_id : Nat) (p : ProbeParameter) (index : Nat) (v : FieldValue)
        (index2 : Nat), index < c.EVENT_MAP_SIZE →
      readParameter c d t cpu_id p index = some (v, index2) → index2 < c.EVENT_MAP_SIZE) ∧
    (∀ (d : PrivateData) (id : Nat),
      (∀ ev index, readEventHeader c d t id = .done (ev, index) → index < c.EVENT_MAP_SIZE) ∧
      ∀ l ∈ processPerfEventReads c d t id, ∀ x ∈ l, x < c.EVENT_MAP_SIZE) := by
  refine ⟨fun cursor n => ⟨rfl, Nat.mod_lt _ hcap, rfl⟩, eventIndex_lt c hcap, ?_, ?_, ?_⟩
  · intro index cpu_id hidx
    refine ⟨?_, readEventData_index_lt c t cpu_id hcap cast_uint64 index hidx,
      readEventData_index_lt c t cpu_id hcap cast_int64 index hidx,
      readEventData_index_lt c t cpu_id hcap cast_int index hidx, ?_⟩
    · rw [← readEventData_index cast_uint64]
      exact readEventData_index_lt c t cpu_id hcap cast_uint64 index hidx
    · intro len
      refine ⟨?_, ?_, ?_⟩
      · rw [readEventString, readEventBuffer_index]; exact Nat.mod_lt _ hcap
      · rw [readEventByteArray, readEventBuffer_index]; exact Nat.mod_lt _ hcap
      · intro max_count
        exact readEventStringListLoop_index_lt c t cpu_id hcap len max_count index _ hidx
  · intro d cpu_id p index v index2 hidx h
    exact readParameter_index_lt c t cpu_id hcap d p index v index2 hidx h
  · intro d id
    refine ⟨?_, processPerfEventReads_lt c d t hcap id⟩
    intro ev index h
    obtain ⟨k, _, _, _, hdone⟩ := readEventHeaderReads_eq c d t id
    rw [hdone ev index h]
    exact slotIndex_lt c hcap _ k (eventIndex_lt c hcap id)

/-- C16 at a concrete input: in a ring of 16 slots a cursor at 15 advances to 0,
and the positions read for the identifier 0 are all below 16. -/
theorem ring_index_invariant_witness :
    INCREMENT_EVENT_DATA_INDEX exampleDefs 15 = 0 ∧
    ∀ l ∈ processPerfEventReads exampleDefs exampleReader tableScalarEvent 0,
      ∀ x ∈ l, x < 16 :=
  ⟨by decide, ((ring_index_invariant exampleDefs tableScalarEvent (by decide)).2.2.2.2
    exampleReader 0).2⟩

/-! ## C18: fields are read from disjoint slots -/

theorem slotIndex_eq_mod (c : Defs) (idx j : Nat) (h : idx < c.EVENT_MAP_SIZE) :
    slotIndex c idx j = (idx + j) % c.EVENT_MAP_SIZE := by
  cases j with
  | zero => exact (Nat.mod_eq_of_lt h).symm
  | succ j => exact slotIndex_succ_eq c idx j

theorem add_mod_inj (m s a b : Nat) (ha : a < m) (hb : b < m)
    (h : (s + a) % m = (s + b) % m) : a = b := by
  have h1 : (s + a) ≡ (s + b) [MOD m] := h
  have h2 : a ≡ b [MOD m] := Nat.ModEq.add_left_cancel' s h1
  exact Nat.ModEq.eq_of_lt_of_lt h2 ha hb

/-- The loop of `readEventBuffer` reads consecutive slots from its start on, at
most the number of chunks. -/
theorem readEventBufferLoopReads_eq (s : Bool) (c : Defs) (t : BPFPercpuArrayTable)
    (cpu n : Nat) :
    ∀ (idx : Nat) (acc : List Nat),
      ∃ m, m ≤ n ∧
        readEventBufferLoopReads s c t cpu n idx acc = (List.range m).map (slotIndex c idx) := by
  induction n with
  | zero => intro idx acc; exact ⟨0, Nat.le_refl 0, rfl⟩
  | succ n ih =>
    intro idx acc
    simp only [readEventBufferLoopReads]
    rcases readEventData_step cast_uint64 c t idx cpu with h1 | ⟨_, h1⟩
    · exact ⟨1, by omega, by simp only [h1, if_true]; rfl⟩
    · simp only [h1, Bool.true_eq_false, if_false]
      cases happ : appendChunkBytes s (chunk_bytes (cast_uint64 (slotWord t idx cpu))) acc with
      | mk v flag =>
        cases flag with
        | true => exact ⟨1, by omega, rfl⟩
        | false =>
          obtain ⟨m, hm, hreads⟩ := ih (INCREMENT_EVENT_DATA_INDEX c idx) v
          refine ⟨m + 1, by omega, ?_⟩
          simp only [hreads]
          rw [List.range_succ_eq_map, List.map_cons, List.map_map]
          congr 1
          apply List.map_congr_left
          intro j _
          exact slotIndex_succ_left c idx j

theorem readEventBufferReads_cover (s : Bool) (c : Defs) (t : BPFPercpuArrayTable)
    (idx cpu len : Nat) (hidx : idx < c.EVENT_MAP_SIZE) :
    ∀ x ∈ readEventBufferReads s c t idx cpu len,
      ∃ j, j < len / 8 ∧ x = (idx + j) % c.EVENT_MAP_SIZE := by
  intro x hx
  obtain ⟨m, hm, hreads⟩ := readEventBufferLoopReads_eq s c t cpu (len / 8) idx []
  unfold readEventBufferReads at hx
  rw [hreads] at hx
  obtain ⟨j, hj, rfl⟩ := List.mem_map.1 hx
  exact ⟨j, Nat.lt_of_lt_of_le (List.mem_range.1 hj) hm, slotIndex_eq_mod c idx j hidx⟩

/-- The loop of `readEventStringList`, when a string takes at least one slot,
reads only slots between its start and the cursor it returns. -/
theorem readEventStringListLoop_cover (c : Defs) (t : BPFPercpuArrayTable) (cpu len n : Nat)
    (hcap : 0 < c.EVENT_MAP_SIZE) (hcc : 1 ≤ len / 8) :
    ∀ (idx : Nat) (value : StringList), idx < c.EVENT_MAP_SIZE →
      ∃ k, k ≤ n * (len / 8) + 1 ∧
        ((readEventStringListLoop c t cpu len n idx value).ok = true →
          (readEventStringListLoop c t cpu len n idx value).index =
            (idx + k) % c.EVENT_MAP_SIZE) ∧
        ∀ x ∈ readEventStringListLoopReads c t cpu len n idx,
          ∃ j, j < k ∧ x = (idx + j) % c.EVENT_MAP_SIZE := by
  induction n with
  | zero =>
    intro idx value hidx
    refine ⟨0, by omega, fun _ => (Nat.mod_eq_of_lt hidx).symm, ?_⟩
    intro x hx
    simp [readEventStringListLoopReads] at hx
  | succ n ih =>
    intro idx value hidx
    have h0 : idx = (idx + 0) % c.EVENT_MAP_SIZE := (Nat.mod_eq_of_lt hidx).symm
    simp only [readEventStringListLoop, readEventStringListLoopReads]
    rcases readEventData_step cast_uint64 c t idx cpu with h1 | ⟨_, h1⟩
    · simp only [h1, if_true]
      refine ⟨1, by omega, (fun h => by cases h), ?_⟩
      intro x hx
      simp only [List.mem_singleton] at hx
      exact ⟨0, by omega, by rw [hx]; exact h0⟩
    simp only [h1, Bool.true_eq_false, if_false]
    by_cases hT : cast_uint64 (slotWord t idx cpu) = c.VARARGS_TRUNCATION
    · simp only [if_pos hT]
      refine ⟨1, by omega, fun _ => rfl, ?_⟩
      intro x hx
      simp only [List.mem_singleton] at hx
      exact ⟨0, by omega, by rw [hx]; exact h0⟩
    by_cases hE : cast_uint64 (slotWord t idx cpu) = c.VARARGS_TERMINATOR
    · simp only [if_neg hT, if_pos hE]
      refine ⟨1, by omega, fun _ => rfl, ?_⟩
      intro x hx
      simp only [List.mem_singleton] at hx
      exact ⟨0, by omega, by rw [hx]; exact h0⟩
    simp only [if_neg hT, if_neg hE]
    have hbuf := readEventBufferReads_cover true c t idx cpu len hidx
    have hsidx : (readEventString c t idx cpu len).index =
        (idx + len / 8) % c.EVENT_MAP_SIZE := readEventBuffer_index true c t idx cpu len
    cases hs : (readEventString c t idx cpu len).ok with
    | false =>
      simp only [if_true]
      refine ⟨len / 8, ?_, (fun h => by cases h), ?_⟩
      · rw [Nat.succ_mul]; omega
      · intro x hx
        rcases List.mem_cons.1 hx with rfl | hx
        · exact ⟨0, by omega, h0⟩
        · exact hbuf x hx
    | true =>
      simp only [Bool.true_eq_false, if_false]
      have hlt : (readEventString c t idx cpu len).index < c.EVENT_MAP_SIZE := by
        rw [hsidx]; exact Nat.mod_lt _ hcap
      obtain ⟨k, hk, hindex, hreads⟩ := ih (readEventString c t idx cpu len).index
        { value with data := value.data ++ [(readEventString c t idx cpu len).value] } hlt
      refine ⟨len / 8 + k, ?_, ?_, ?_⟩
      · rw [Nat.succ_mul]; omega
      · intro hok
        rw [hindex hok, hsidx, Nat.mod_add_mod, Nat.add_assoc]
      · intro x hx
        rcases List.mem_cons.1 hx with rfl | hx
        · exact ⟨0, by omega, h0⟩
        · rcases List.mem_append.1 hx with hx | hx
          · obtain ⟨j, hj, hxj⟩ := hbuf x hx
            exact ⟨j, by omega, hxj⟩
          · obtain ⟨j, hj, hxj⟩ := hreads x hx
            refine ⟨len / 8 + j, by omega, ?_⟩
            rw [hxj, hsidx, Nat.mod_add_mod, Nat.add_assoc]

/-- One parameter reads only slots between its cursor and the cursor it
returns, and takes no more slots than its budget. -/
theorem readParameter_cover (c : Defs) (d : PrivateData) (t : BPFPercpuArrayTable)
    (cpu : Nat) (p : ProbeParameter) (idx : Nat) (hcap : 0 < c.EVENT_MAP_SIZE)
    (hidx : idx < c.EVENT_MAP_SIZE)
    (hsl : p.type = .StringList → d.string_list_size = 0 ∨ 8 ≤ d.string_buffer_size) :
    ∃ n, n ≤ parameterBudget d p ∧
      (∀ v idx2, readParameter c d t cpu p idx = some (v, idx2) →
        idx2 = (idx + n) % c.EVENT_MAP_SIZE) ∧
      ∀ x ∈ readParameterReads c d t cpu p idx,
        ∃ j, j < n ∧ x = (idx + j) % c.EVENT_MAP_SIZE := by
  have h0 : idx = (idx + 0) % c.EVENT_MAP_SIZE := (Nat.mod_eq_of_lt hidx).symm
  unfold parameterBudget readParameter readParameterReads
  cases hty : p.type <;> simp only []
  · refine ⟨d.string_buffer_size / 8, Nat.le_refl _, ?_,
      readEventBufferReads_cover true c t idx cpu _ hidx⟩
    intro v idx2 h
    split_ifs at h
    simp only [Option.some.injEq, Prod.mk.injEq] at h
    rw [← h.2]
    exact readEventBuffer_index true c t idx cpu _
  · refine ⟨1, Nat.le_refl _, ?_, ?_⟩
    · intro v idx2 h
      rcases readEventData_step cast_int64 c t idx cpu with h1 | ⟨_, h1⟩
      · simp [h1] at h
      · simp only [h1, Bool.true_eq_false, if_false, Option.some.injEq, Prod.mk.injEq] at h
        rw [← h.2]; rfl
    · intro x hx
      simp only [List.mem_singleton] at hx
      exact ⟨0, by omega, by rw [hx]; exact h0⟩
  · refine ⟨1, Nat.le_refl _, ?_, ?_⟩
    · intro v idx2 h
      rcases readEventData_step cast_uint64 c t idx cpu with h1 | ⟨_, h1⟩
      · simp [h1] at h
      · simp only [h1, Bool.true_eq_false, if_false, Option.some.injEq, Prod.mk.injEq] at h
        rw [← h.2]; rfl
    · intro x hx
      simp only [List.mem_singleton] at hx
      exact ⟨0, by omega, by rw [hx]; exact h0⟩
  · rcases hsl hty with hz | h8
    · refine ⟨0, by omega, ?_, ?_⟩
      · intro v idx2 h
        simp only [readEventStringList, hz, readEventStringListLoop, Bool.true_eq_false,
          if_false, Option.some.injEq, Prod.mk.injEq] at h
        rw [← h.2]; exact h0
      · intro x hx
        simp [readEventStringListReads, hz, readEventStringListLoopReads] at hx
    · have hcc : 1 ≤ d.string_buffer_size / 8 := by omega
      obtain ⟨k, hk, hindex, hreads⟩ := readEventStringListLoop_cover c t cpu
        d.string_buffer_size d.string_list_size hcap hcc idx { truncated := false, data := [] } hidx
      refine ⟨k, hk, ?_, hreads⟩
      intro v idx2 h
      cases hok : (readEventStringList c t idx cpu d.string_buffer_size d.string_list_size).ok with
      | false => simp [hok] at h
      | true =>
        simp only [hok, Bool.true_eq_false, if_false, Option.some.injEq, Prod.mk.injEq] at h
        rw [← h.2]
        exact hindex hok
  · refine ⟨d.string_buffer_size / 8, Nat.le_refl _, ?_,
      readEventBufferReads_cover false c t idx cpu _ hidx⟩
    intro v idx2 h
    split_ifs at h
    simp only [Option.some.injEq, Prod.mk.injEq] at h
    rw [← h.2]
    exact readEventBuffer_index false c t idx cpu _
  · refine ⟨0, Nat.le_refl _, ?_, ?_⟩
    · intro v idx2 h; cases h
    · intro x hx; simp at hx

/-- The parameters of a list whose budget fits in what is left of the ring are
read from pairwise disjoint slots, after the offset they start from. -/
theorem readParameterListReads_disjoint (c : Defs) (d : PrivateData) (t : BPFPercpuArrayTable)
    (cpu : Nat) (hcap : 0 < c.EVENT_MAP_SIZE) (start : Nat) (params : List ProbeParameter) :
    ∀ idx o, idx = (start + o) % c.EVENT_MAP_SIZE →
      o + parameterListBudget d params ≤ c.EVENT_MAP_SIZE →
      (∀ p ∈ params, p.type = .StringList →
        d.string_list_size = 0 ∨ 8 ≤ d.string_buffer_size) →
      (∀ l ∈ readParameterListReads c d t cpu params idx, ∀ x ∈ l,
        ∃ j, o ≤ j ∧ j < o + parameterListBudget d params ∧
          x = (start + j) % c.EVENT_MAP_SIZE) ∧
      (readParameterListReads c d t cpu params idx).Pairwise List.Disjoint := by
  induction params with
  | nil =>
    intro idx o _ _ _
    exact ⟨fun l hl => by simp [readParameterListReads] at hl, List.Pairwise.nil⟩
  | cons p rest ih =>
    intro idx o hidx hfit hsl
    have hlt : idx < c.EVENT_MAP_SIZE := by rw [hidx]; exact Nat.mod_lt _ hcap
    obtain ⟨n, hn, hnext, hreads⟩ := readParameter_cover c d t cpu p idx hcap hlt
      (hsl p (List.mem_cons_self p rest))
    have hbudget : parameterListBudget d (p :: rest) =
        parameterBudget d p + parameterListBudget d rest := rfl
    have hcover : ∀ x ∈ readParameterReads c d t cpu p idx,
        ∃ j, o ≤ j ∧ j < o + n ∧ x = (start + j) % c.EVENT_MAP_SIZE := by
      intro x hx
      obtain ⟨j, hj, hxj⟩ := hreads x hx
      refine ⟨o + j, by omega, by omega, ?_⟩
      rw [hxj, hidx, Nat.mod_add_mod, Nat.add_assoc]
    simp only [readParameterListReads]
    cases hr : readParameter c d t cpu p idx with
    | none =>
      simp only []
      refine ⟨?_, List.pairwise_singleton _ _⟩
      intro l hl x hx
      simp only [List.mem_singleton] at hl
      subst hl
      obtain ⟨j, h1, h2, h3⟩ := hcover x hx
      exact ⟨j, h1, by omega, h3⟩
    | some r =>
      obtain ⟨v, idx2⟩ := r
      simp only []
      have hidx2 : idx2 = (start + (o + n)) % c.EVENT_MAP_SIZE := by
        rw [hnext v idx2 hr, hidx, Nat.mod_add_mod, Nat.add_assoc]
      obtain ⟨hcrest, hprest⟩ := ih idx2 (o + n) hidx2 (by omega)
        (fun q hq => hsl q (List.mem_cons_of_mem p hq))
      refine ⟨?_, List.pairwise_cons.2 ⟨?_, hprest⟩⟩
      · intro l hl x hx
        rcases List.mem_cons.1 hl with rfl | hl
        · obtain ⟨j, h1, h2, h3⟩ := hcover x hx
          exact ⟨j, h1, by omega, h3⟩
        · obtain ⟨j, h1, h2, h3⟩ := hcrest l hl x hx
          exact ⟨j, by omega, by omega, h3⟩
      · intro l hl x hx1 hx2
        obtain ⟨j1, _, h12, h13⟩ := hcover x hx1
        obtain ⟨j2, h21, h22, h23⟩ := hcrest l hl x hx2
        have := add_mod_inj c.EVENT_MAP_SIZE start j1 j2 (by omega) (by omega)
          (by rw [← h13, ← h23])
        omega

/-- The first position a parameter reads, if it reads any, is its cursor. -/
theorem readParameterReads_head (c : Defs) (d : PrivateData) (t : BPFPercpuArrayTable)
    (cpu : Nat) (p : ProbeParameter) (idx x : Nat)
    (h : (readParameterReads c d t cpu p idx).head? = some x) : x = idx := by
  have hbuf : ∀ s len, (readEventBufferReads s c t idx cpu len).head? = some x → x = idx := by
    intro s len hh
    obtain ⟨m, _, hreads⟩ := readEventBufferLoopReads_eq s c t cpu (len / 8) idx []
    unfold readEventBufferReads at hh
    rw [hreads] at hh
    cases m with
    | zero => simp at hh
    | succ m =>
      rw [List.range_succ_eq_map] at hh
      simp only [List.map_cons, List.head?_cons, Option.some.injEq] at hh
      rw [← hh]; rfl
  unfold readParameterReads at h
  cases hty : p.type <;> simp only [hty] at h
  · exact hbuf _ _ h
  · simpa using h.symm
  · simpa using h.symm
  · unfold readEventStringListReads at h
    cases hn : d.string_list_size with
    | zero => simp [hn, readEventStringListLoopReads] at h
    | succ n =>
      rw [hn] at h
      simp only [readEventStringListLoopReads] at h
      split_ifs at h <;> simpa using h.symm
  · exact hbuf _ _ h
  · simp at h

/-- C18, as stated, fails. A byte array of 128 bytes in a ring of 16 slots is
read from the positions 5 to 15 and then 0 to 4, the positions of the header
words; and after a string list whose strings take no slot, the integer declared
next is read from the slot the list looked at. Both events are decoded. -/
theorem processPerfEventReads_overlap :
    (emittedEvent exampleDefs exampleReaderBigBuffer tableScalarEvent 0).isSome = true ∧
    ¬ (processPerfEventReads exampleDefs exampleReaderBigBuffer tableScalarEvent 0).Pairwise
      List.Disjoint ∧
    (emittedEvent exampleDefs exampleReaderEmptyStrings tableScalarEvent 0).isSome = true ∧
    ¬ (processPerfEventReads exampleDefs exampleReaderEmptyStrings tableScalarEvent 0).Pairwise
      List.Disjoint := by
  have h1 : processPerfEventReads exampleDefs exampleReaderBigBuffer tableScalarEvent 0 =
      [[0], [1], [2], [3], [4], [5, 6, 7, 8, 9, 10, 11, 12, 13, 14, 15, 0, 1, 2, 3, 4]] := by
    decide
  have h2 : processPerfEventReads exampleDefs exampleReaderEmptyStrings tableScalarEvent 0 =
      [[0], [1], [2], [3], [4], [5], [5]] := by
    decide
  refine ⟨by decide, ?_, by decide, ?_⟩
  · rw [h1]
    intro hp
    have := (List.pairwise_cons.1 hp).1 _ (by simp : [5, 6, 7, 8, 9, 10, 11, 12, 13, 14, 15, 0, 1,
      2, 3, 4] ∈ [[1], [2], [3], [4], [5, 6, 7, 8, 9, 10, 11, 12, 13, 14, 15, 0, 1, 2, 3, 4]])
    exact this (List.mem_singleton.2 rfl) (by decide)
  · rw [h2]
    intro hp
    simp [List.Disjoint] at hp

/-- C18, amended: when the ring has room for the six header slots and for the
largest encoding of every schema entry of the reader (its parameters' budgets:
one slot for an integer, `max_len / 8` for a string or a byte array,
`max_count * (max_len / 8) + 1` for a string list), and a declared string list has
`max_count = 0` or strings of at least one slot, the ring positions read for the
header words, the exit code and the declared parameters are pairwise disjoint
across fields; a field starts reading at the cursor the previous one left, and a
field other than a string list reads no position twice. -/
theorem processPerfEventReads_disjoint (c : Defs) (d : PrivateData) (t : BPFPercpuArrayTable)
    (id : Nat) (h6 : 6 ≤ c.EVENT_MAP_SIZE)
    (hfit : ∀ et params, parameterListAt d et = some params →
      6 + parameterListBudget d params ≤ c.EVENT_MAP_SIZE ∧
      ∀ p ∈ params, p.type = .StringList →
        d.string_list_size = 0 ∨ 8 ≤ d.string_buffer_size) :
    (processPerfEventReads c d t id).Pairwise List.Disjoint ∧
    (∀ l ∈ processPerfEventReads c d t id, ∀ x ∈ l,
      ∃ j, j < c.EVENT_MAP_SIZE ∧ x = (eventIndex c id + j) % c.EVENT_MAP_SIZE) ∧
    (∀ cpu p idx x, (readParameterReads c d t cpu p idx).head? = some x → x = idx) ∧
    (∀ cpu p idx, p.type ≠ .StringList → idx < c.EVENT_MAP_SIZE →
      parameterBudget d p ≤ c.EVENT_MAP_SIZE → (readParameterReads c d t cpu p idx).Nodup) := by
  have hcap : 0 < c.EVENT_MAP_SIZE := by omega
  have hstart := eventIndex_lt c hcap id
  obtain ⟨k, hk1, hk6, hreads, hdone⟩ := readEventHeaderReads_eq c d t id
  -- the header words
  have hheader : ∀ l ∈ (List.range k).map (fun j => [slotIndex c (eventIndex c id) j]),
      ∀ x ∈ l, ∃ j, j < k ∧ x = (eventIndex c id + j) % c.EVENT_MAP_SIZE := by
    intro l hl x hx
    obtain ⟨j, hj, rfl⟩ := List.mem_map.1 hl
    simp only [List.mem_singleton] at hx
    exact ⟨j, List.mem_range.1 hj, by rw [hx]; exact slotIndex_eq_mod c _ j hstart⟩
  have hhp : ((List.range k).map (fun j => [slotIndex c (eventIndex c id) j])).Pairwise
      List.Disjoint := by
    rw [List.pairwise_map]
    refine (List.pairwise_lt_range k).imp_of_mem ?_
    intro a b ha hb hab x hx1 hx2
    simp only [List.mem_singleton] at hx1 hx2
    rw [hx1, slotIndex_eq_mod c _ a hstart, slotIndex_eq_mod c _ b hstart] at hx2
    have := add_mod_inj c.EVENT_MAP_SIZE _ a b
      (by have := List.mem_range.1 ha; omega) (by have := List.mem_range.1 hb; omega) hx2
    omega
  -- the declared parameters
  have hparams : ∃ P, processPerfEventReads c d t id =
      (List.range k).map (fun j => [slotIndex c (eventIndex c id) j]) ++ P ∧
      (∀ l ∈ P, ∀ x ∈ l, ∃ j, k ≤ j ∧ j < c.EVENT_MAP_SIZE ∧
        x = (eventIndex c id + j) % c.EVENT_MAP_SIZE) ∧
      P.Pairwise List.Disjoint := by
    unfold processPerfEventReads
    rw [hreads]
    refine ⟨_, rfl, ?_⟩
    cases hh : readEventHeader c d t id with
    | raised => exact ⟨(fun l hl => nomatch hl), List.Pairwise.nil⟩
    | discarded => exact ⟨(fun l hl => nomatch hl), List.Pairwise.nil⟩
    | done r =>
      obtain ⟨ev, idx⟩ := r
      cases hp : parameterListAt d ev.event_identifier with
      | none =>
        simp only [hp]
        exact ⟨(fun l hl => nomatch hl), List.Pairwise.nil⟩
      | some params =>
        simp only [hp]
        obtain ⟨hb, hsl⟩ := hfit _ params hp
        have hidx : idx = (eventIndex c id + k) % c.EVENT_MAP_SIZE := by
          rw [hdone ev idx hh]
          exact slotIndex_eq_mod c _ k hstart
        obtain ⟨hcov, hpw⟩ := readParameterListReads_disjoint c d t (eventCpu id) hcap
          (eventIndex c id) params idx k hidx (by omega) hsl
        refine ⟨?_, hpw⟩
        intro l hl x hx
        obtain ⟨j, h1, h2, h3⟩ := hcov l hl x hx
        exact ⟨j, h1, by omega, h3⟩
  obtain ⟨P, hP, hPcov, hPpw⟩ := hparams
  refine ⟨?_, ?_, readParameterReads_head c d t, ?_⟩
  · rw [hP, List.pairwise_append]
    refine ⟨hhp, hPpw, ?_⟩
    intro a ha b hb x hx1 hx2
    obtain ⟨j1, h11, h12⟩ := hheader a ha x hx1
    obtain ⟨j2, h21, h22, h23⟩ := hPcov b hb x hx2
    have := add_mod_inj c.EVENT_MAP_SIZE _ j1 j2 (by omega) h22 (by rw [← h12, ← h23])
    omega
  · intro l hl x hx
    rw [hP] at hl
    rcases List.mem_append.1 hl with hl | hl
    · obtain ⟨j, h1, h2⟩ := hheader l hl x hx
      exact ⟨j, by omega, h2⟩
    · obtain ⟨j, _, h2, h3⟩ := hPcov l hl x hx
      exact ⟨j, h2, h3⟩
  · intro cpu p idx hty hidx hbud
    have hbuf : ∀ s, d.string_buffer_size / 8 ≤ c.EVENT_MAP_SIZE →
        (readEventBufferReads s c t idx cpu d.string_buffer_size).Nodup := by
      intro s hle
      obtain ⟨m, hm, hr⟩ := readEventBufferLoopReads_eq s c t cpu (d.string_buffer_size / 8) idx []
      unfold readEventBufferReads
      rw [hr]
      refine (List.nodup_range m).map_on ?_
      intro a ha b hb hab
      rw [slotIndex_eq_mod c idx a hidx, slotIndex_eq_mod c idx b hidx] at hab
      exact add_mod_inj c.EVENT_MAP_SIZE idx a b
        (by have := List.mem_range.1 ha; omega) (by have := List.mem_range.1 hb; omega) hab
    unfold parameterBudget at hbud
    unfold readParameterReads
    cases hp : p.type <;> simp only [hp] at hbud hty ⊢
    · exact hbuf true hbud
    · exact List.nodup_singleton _
    · exact List.nodup_singleton _
    · exact absurd rfl hty
    · exact hbuf false hbud
    · exact List.nodup_nil

theorem exampleReader_fits (et : Nat) (params : List ProbeParameter)
    (h : parameterListAt exampleReader et = some params) :
    6 + parameterListBudget exampleReader params ≤ exampleDefs.EVENT_MAP_SIZE ∧
    ∀ p ∈ params, p.type = .StringList →
      exampleReader.string_list_size = 0 ∨ 8 ≤ exampleReader.string_buffer_size := by
  cases et with
  | zero =>
    have hp : params =
        [{ name := "fd", type := .SignedInteger }, { name := "flags", type := .UnsignedInteger }] := by
      have h2 : parameterListAt exampleReader 0 = some
          [{ name := "fd", type := .SignedInteger },
            { name := "flags", type := .UnsignedInteger }] := by decide
      rw [h2] at h
      exact (Option.some.inj h).symm
    subst hp
    exact ⟨by decide, fun p _ _ => Or.inr (by decide)⟩
  | succ n =>
    simp [parameterListAt, exampleReader] at h

/-- C18, amended, at a concrete input: the seven fields of the event at ring
position 0 are read from seven different slots. -/
theorem processPerfEventReads_disjoint_witness :
    (processPerfEventReads exampleDefs exampleReader tableScalarEvent 0).Pairwise List.Disjoint ∧
    processPerfEventReads exampleDefs exampleReader tableScalarEvent 0 =
      [[0], [1], [2], [3], [4], [5], [6]] :=
  ⟨(processPerfEventReads_disjoint exampleDefs exampleReader tableScalarEvent 0 (by decide)
    exampleReader_fits).1, by decide⟩

end trailofbits
